import Mathlib

/-!
# blogs-go: a verification development of `main.go`

The program is an HTTP server with seven handlers over two document collections
(`blogColl`, `userColl`) and a process-wide counter `currentID`.

Modelling conventions.

* A document collection is the list of its records in natural (insertion) order.
* The driver calls (`FindOne`, `Find`, `InsertOne`, `UpdateOne`, `DeleteOne`) are
  functions on that list.  `UpdateOne` and `DeleteOne` act on the first record
  that matches the filter and report *no error* when nothing matches; `FindOne`
  reports an error when nothing matches.  Whether the store itself fails during a
  request is an explicit input, `StoreEnv`.
* `json.Decode` and `strconv.Atoi` are library calls made at the top of a handler;
  a handler takes their outcome (`none` for a non-nil error) as an argument and
  the dispatcher supplies it.
* `log.Fatal` ends the process; a handler outcome is therefore either a reply or
  `Result.fatal`.
* The counter `currentID` is a mathematical integer, without wrap-around: it moves
  by at most one per invocation (`run_counter_le`), so wrapping it would take
  `2^63` creates within one process lifetime.
* `Blog.Likes` is stored as a 64-bit integer: `$inc` is rejected by the store when
  the sum would pass `2^63 - 1` (`incLikes`).
* `Blog.Comments` is a Go slice and has two shapes: the nil slice, which is what
  `json.Decode` leaves for a draft without a `comments` array and which is stored
  as null, and an array.  `$push` appends to an array and is rejected by the
  store on null (`pushComment`).
-/

namespace BlogsGo

/-! ## Data model (`main.go` lines 18-44) -/

/-- Record `Comment`. -/
structure Comment where
  author : String
  content : String
deriving DecidableEq, Repr

/-- Record `Blog`. -/
structure Blog where
  id : Int
  title : String
  content : String
  author : String
  likes : Int
  /-- The slice `Comments`: `none` is the nil slice (stored as null), `some cs` an array. -/
  comments : Option (List Comment)
deriving DecidableEq, Repr

/-- Record `User`. -/
structure User where
  username : String
  password : String
deriving DecidableEq, Repr

/-- Package-level variables `currentID`, `blogColl`, `userColl`. -/
structure Server where
  currentID : Int
  blogColl : List Blog
  userColl : List User
deriving DecidableEq, Repr

/-- State at process start against an empty database. -/
def Server.initial : Server :=
  { currentID := 0, blogColl := [], userColl := [] }

/-! ## The document store -/

/-- How the store behaves during one request. -/
structure StoreEnv where
  /-- The call `Find` or `FindOne` reports a store error. -/
  findErr : Bool
  /-- Index of a record that `cursor.Decode` cannot decode, if any. -/
  decodeErrAt : Option Nat
  /-- The call `InsertOne`, `UpdateOne` or `DeleteOne` reports a store error. -/
  writeErr : Bool
deriving DecidableEq, Repr

/-- A store that answers every call without error. -/
def StoreEnv.healthy : StoreEnv :=
  { findErr := false, decodeErrAt := none, writeErr := false }

/-- Driver call `FindOne(filter).Decode(&v)`: the first matching record, `none` when the
error is non-nil (no document matches, or the store fails). -/
def findOne {α : Type} (env : StoreEnv) (filter : α → Bool) (coll : List α) : Option α :=
  if env.findErr then none else coll.find? filter

/-- Driver call `InsertOne(doc)`: `none` when the error is non-nil. -/
def insertOne {α : Type} (env : StoreEnv) (doc : α) (coll : List α) : Option (List α) :=
  if env.writeErr then none else some (coll ++ [doc])

/-- Apply the update `f` to the first record matching `filter`; no record matching changes
nothing.  `none` when the store rejects the update on that record. -/
def updateFirst {α : Type} (filter : α → Bool) (f : α → Option α) : List α → Option (List α)
  | [] => some []
  | x :: xs =>
    if filter x then (f x).map (fun y => y :: xs)
    else (updateFirst filter f xs).map (fun ys => x :: ys)

/-- Remove the first record matching `filter`; no record matching changes nothing. -/
def deleteFirst {α : Type} (filter : α → Bool) : List α → List α
  | [] => []
  | x :: xs => if filter x then xs else x :: deleteFirst filter xs

/-- Driver call `UpdateOne(filter, update)`: `none` when the error is non-nil, which is
when the store fails or rejects the update on the matched record.  A filter that matches
nothing is not an error. -/
def updateOne {α : Type} (env : StoreEnv) (filter : α → Bool) (f : α → Option α)
    (coll : List α) : Option (List α) :=
  if env.writeErr then none else updateFirst filter f coll

/-- Largest value of a 64-bit integer. -/
def maxInt64 : Int := 2 ^ 63 - 1

/-- The update document `{"$inc": {"likes": 1}}` on one record: the store adds 1 to the
64-bit `likes` and rejects the update when the sum overflows. -/
def incLikes (b : Blog) : Option Blog :=
  if b.likes + 1 ≤ maxInt64 then some { b with likes := b.likes + 1 } else none

/-- The update document `{"$push": {"comments": comment}}` on one record: the store
appends to the array `comments` and rejects the update when the field holds null. -/
def pushComment (comment : Comment) (b : Blog) : Option Blog :=
  match b.comments with
  | none => none
  | some cs => some { b with comments := some (cs ++ [comment]) }

/-- Driver call `DeleteOne(filter)`: `none` when the error is non-nil.  A filter that
matches nothing is not an error. -/
def deleteOne {α : Type} (env : StoreEnv) (filter : α → Bool) (coll : List α) :
    Option (List α) :=
  if env.writeErr then none else some (deleteFirst filter coll)

/-! ## Responses -/

/-- What a handler writes after the status line. -/
inductive Payload
  | empty
  | text (msg : String)
  | blog (b : Blog)
  | blogs (bs : List Blog)
deriving DecidableEq, Repr

/-- An HTTP response: status code and body. -/
structure Response where
  status : Nat
  payload : Payload
deriving DecidableEq, Repr

/-- Outcome of one handler invocation: a reply and the state left behind, or `log.Fatal`
(the process exits and nothing is written). -/
inductive Result
  | reply (resp : Response) (s : Server)
  | fatal (s : Server)
deriving DecidableEq, Repr

/-- State left behind by a handler invocation. -/
def Result.server : Result → Server
  | .reply _ s => s
  | .fatal s => s

/-! ## Handlers (`main.go` lines 68-237) -/

/-- Handler `loginHandler`. -/
def loginHandler (env : StoreEnv) (s : Server) (body : Option User) : Result :=
  match body with
  | none => .reply ⟨400, .text "Invalid request payload"⟩ s
  | some user =>
    match findOne env
        (fun u => u.username == user.username && u.password == user.password) s.userColl with
    | some _ => .reply ⟨200, .empty⟩ s
    | none => .reply ⟨401, .text "Invalid credentials"⟩ s

/-- Handler `signupHandler`. -/
def signupHandler (env : StoreEnv) (s : Server) (body : Option User) : Result :=
  match body with
  | none => .reply ⟨400, .text "Invalid request payload"⟩ s
  | some user =>
    match findOne env (fun u => u.username == user.username) s.userColl with
    | some _ => .reply ⟨409, .text "Username is already taken"⟩ s
    | none =>
      match insertOne env user s.userColl with
      | none => .reply ⟨500, .text "Error creating user"⟩ s
      | some users => .reply ⟨201, .empty⟩ { s with userColl := users }

/-- The cursor loop of `getBlogsHandler`: `i` is the index of the next record, `result`
the slice built so far; `none` when a `cursor.Decode` fails. -/
def scan (env : StoreEnv) : Nat → List Blog → List Blog → Option (List Blog)
  | _, [], result => some result
  | i, doc :: rest, result =>
    if env.decodeErrAt = some i then none else scan env (i + 1) rest (result ++ [doc])

/-- Handler `getBlogsHandler`. -/
def getBlogsHandler (env : StoreEnv) (s : Server) : Result :=
  if env.findErr then .fatal s
  else
    match scan env 0 s.blogColl [] with
    | none => .fatal s
    | some result => .reply ⟨200, .blogs result⟩ s

/-- Handler `createBlogHandler`. -/
def createBlogHandler (env : StoreEnv) (s : Server) (body : Option Blog) : Result :=
  match body with
  | none => .reply ⟨400, .text "Invalid request payload"⟩ s
  | some draft =>
    let currentID := s.currentID + 1
    let blog := { draft with id := currentID }
    match insertOne env blog s.blogColl with
    | none => .fatal { s with currentID := currentID }
    | some blogs => .reply ⟨201, .blog blog⟩ { s with currentID := currentID, blogColl := blogs }

/-- Handler `deleteBlogHandler`. -/
def deleteBlogHandler (env : StoreEnv) (s : Server) (idVar : Option Int) : Result :=
  match idVar with
  | none => .reply ⟨400, .text "Invalid blog ID"⟩ s
  | some id =>
    match deleteOne env (fun b => b.id == id) s.blogColl with
    | none => .reply ⟨404, .text "Blog not found"⟩ s
    | some blogs => .reply ⟨200, .empty⟩ { s with blogColl := blogs }

/-- Handler `likeBlogHandler`. -/
def likeBlogHandler (env : StoreEnv) (s : Server) (idVar : Option Int) : Result :=
  match idVar with
  | none => .reply ⟨400, .text "Invalid blog ID"⟩ s
  | some id =>
    match updateOne env (fun b => b.id == id) incLikes s.blogColl with
    | none => .reply ⟨404, .text "Blog not found"⟩ s
    | some blogs => .reply ⟨200, .empty⟩ { s with blogColl := blogs }

/-- Handler `commentBlogHandler`. -/
def commentBlogHandler (env : StoreEnv) (s : Server) (idVar : Option Int)
    (body : Option Comment) : Result :=
  match idVar with
  | none => .reply ⟨400, .text "Invalid blog ID"⟩ s
  | some id =>
    match body with
    | none => .reply ⟨400, .text "Invalid request payload"⟩ s
    | some comment =>
      match updateOne env (fun b => b.id == id) (pushComment comment) s.blogColl with
      | none => .reply ⟨404, .text "Blog not found"⟩ s
      | some blogs => .reply ⟨200, .empty⟩ { s with blogColl := blogs }

/-! ## Sequential runs of handler invocations -/

/-- One handler invocation with the outcome of its decoding steps. -/
inductive Call
  | login (body : Option User)
  | signup (body : Option User)
  | getBlogs
  | createBlog (body : Option Blog)
  | deleteBlog (idVar : Option Int)
  | likeBlog (idVar : Option Int)
  | commentBlog (idVar : Option Int) (body : Option Comment)
deriving DecidableEq, Repr

/-- Run the handler a call names. -/
def Call.exec (env : StoreEnv) (s : Server) : Call → Result
  | .login body => loginHandler env s body
  | .signup body => signupHandler env s body
  | .getBlogs => getBlogsHandler env s
  | .createBlog body => createBlogHandler env s body
  | .deleteBlog idVar => deleteBlogHandler env s idVar
  | .likeBlog idVar => likeBlogHandler env s idVar
  | .commentBlog idVar body => commentBlogHandler env s idVar body

/-- What a run leaves behind: the responses written, the final state, and whether the
process exited through `log.Fatal`. -/
structure Trace where
  responses : List Response
  server : Server
  exited : Bool
deriving DecidableEq, Repr

/-- Serve the inputs one after the other with `step`; a fatal outcome ends the process,
so the inputs after it are never served. -/
def runWith {ι : Type} (step : Server → ι → Result) : Server → List ι → Trace
  | s, [] => { responses := [], server := s, exited := false }
  | s, x :: rest =>
    match step s x with
    | .fatal s1 => { responses := [], server := s1, exited := true }
    | .reply resp s1 =>
      let t := runWith step s1 rest
      { responses := resp :: t.responses, server := t.server, exited := t.exited }

/-- A sequential run of handler invocations, each with its own store behaviour. -/
def run (s : Server) (calls : List (StoreEnv × Call)) : Trace :=
  runWith (fun st x => x.2.exec x.1 st) s calls

/-- The ids handed out by the successful creates of a run, in order: a successful create
is the one reply with status 201 that carries the stored Blog. -/
def assignedIds : List Response → List Int
  | [] => []
  | ⟨201, .blog b⟩ :: rest => b.id :: assignedIds rest
  | _ :: rest => assignedIds rest

/-- Number of successful creates among the replies of a run. -/
def createdCount (rs : List Response) : Nat :=
  (rs.filter (fun r => r.status == 201 &&
    match r.payload with
    | .blog _ => true
    | _ => false)).length

/-- The ids of the Blogs in the collection, in order. -/
def Server.ids (s : Server) : List Int :=
  s.blogColl.map Blog.id

/-- The usernames of the Users in the collection, in order. -/
def Server.usernames (s : Server) : List String :=
  s.userColl.map User.username

/-! ## The route table (`main.go` lines 239-251) -/

/-- Names of the seven handlers. -/
inductive Handler
  | login
  | signup
  | getBlogs
  | createBlog
  | likeBlog
  | commentBlog
  | deleteBlog
deriving DecidableEq, Repr

/-- One segment of a route template: a literal or a variable such as `{id}`. -/
inductive Seg
  | lit (s : String)
  | var (name : String)
deriving DecidableEq, Repr

/-- A registered route: `router.HandleFunc(path, handler).Methods(method)`. -/
structure Route where
  path : List Seg
  handler : Handler
  method : String
deriving DecidableEq, Repr

/-- The route table built by `main`, in registration order. -/
def routes : List Route :=
  [ { path := [.lit "api", .lit "users"], handler := .login, method := "POST" },
    { path := [.lit "api", .lit "users"], handler := .signup, method := "POST" },
    { path := [.lit "api", .lit "blogs"], handler := .getBlogs, method := "GET" },
    { path := [.lit "api", .lit "blogs"], handler := .createBlog, method := "POST" },
    { path := [.lit "api", .lit "blogs", .var "id", .lit "like"],
      handler := .likeBlog, method := "POST" },
    { path := [.lit "api", .lit "blogs", .var "id", .lit "comment"],
      handler := .commentBlog, method := "POST" },
    { path := [.lit "api", .lit "blogs", .var "id"], handler := .deleteBlog, method := "DELETE" } ]

/-- The three ways a handler may decode a request body with `json.Decode`; `none` is a
decoding error. -/
structure Body where
  asUser : Option User
  asBlog : Option Blog
  asComment : Option Comment
deriving DecidableEq, Repr

/-- An inbound request; the path `/api/blogs/7/like` is `["api", "blogs", "7", "like"]`. -/
structure Request where
  method : String
  path : List String
  body : Body
deriving DecidableEq, Repr

/-- Match a path against a template, collecting the variables; a variable matches one
non-empty segment. -/
def matchPath : List Seg → List String → Option (List (String × String))
  | [], [] => some []
  | .lit l :: tpl, p :: path => if l = p then matchPath tpl path else none
  | .var n :: tpl, p :: path =>
    if p = "" then none else (matchPath tpl path).map (fun vs => (n, p) :: vs)
  | _, _ => none

/-- A route matches a request when the method and the path both match. -/
def Route.matchReq (rt : Route) (r : Request) : Option (Handler × List (String × String)) :=
  if rt.method = r.method then (matchPath rt.path r.path).map (fun vs => (rt.handler, vs))
  else none

/-- The router tries the routes in registration order; the first that matches wins. -/
def routerMatch (rts : List Route) (r : Request) : Option (Handler × List (String × String)) :=
  rts.findSome? (fun rt => rt.matchReq r)

/-- Library call `strconv.Atoi`: an optional sign, then one or more decimal digits, in the
range of a 64-bit `int`; `none` is a non-nil error. -/
def atoi (s : String) : Option Int :=
  let body : Bool × List Char :=
    match s.toList with
    | '-' :: ds => (true, ds)
    | '+' :: ds => (false, ds)
    | ds => (false, ds)
  if body.2.isEmpty || !body.2.all Char.isDigit then none
  else
    let n : Int := body.2.foldl (fun a c => a * 10 + ((c.toNat : Int) - 48)) 0
    let v : Int := if body.1 then -n else n
    if v < -(2 : Int) ^ 63 ∨ (2 : Int) ^ 63 - 1 < v then none else some v

/-- Lookup `mux.Vars(r)[name]`; a missing key reads as the empty string. -/
def vars (vs : List (String × String)) (name : String) : String :=
  (vs.lookup name).getD ""

/-- The handler invocation the router makes for a request, if a route matches. -/
def dispatch (r : Request) : Option Call :=
  match routerMatch routes r with
  | none => none
  | some (.login, _) => some (.login r.body.asUser)
  | some (.signup, _) => some (.signup r.body.asUser)
  | some (.getBlogs, _) => some .getBlogs
  | some (.createBlog, _) => some (.createBlog r.body.asBlog)
  | some (.likeBlog, vs) => some (.likeBlog (atoi (vars vs "id")))
  | some (.commentBlog, vs) => some (.commentBlog (atoi (vars vs "id")) r.body.asComment)
  | some (.deleteBlog, vs) => some (.deleteBlog (atoi (vars vs "id")))

/-- The router serving one request: the matched handler runs; when no route matches the
router answers 405 if only the method is wrong and 404 otherwise. -/
def serveHTTP (env : StoreEnv) (s : Server) (r : Request) : Result :=
  match dispatch r with
  | some call => call.exec env s
  | none =>
    if routes.any (fun rt => (matchPath rt.path r.path).isSome) then .reply ⟨405, .empty⟩ s
    else .reply ⟨404, .text "404 page not found"⟩ s

/-- The server process: requests served one after the other until the process exits. -/
def serve (s : Server) (reqs : List (StoreEnv × Request)) : Trace :=
  runWith (fun st x => serveHTTP x.1 st x.2) s reqs

/-! ## Concurrent signups under `usersMu` (`main.go` lines 97-115) -/

/-- A `sync.RWMutex`: the number of readers holding it and whether a writer holds it. -/
structure RWMutex where
  readers : Nat
  writer : Bool
deriving DecidableEq, Repr

/-- Method `RLock`: granted unless a writer holds the lock; other readers do not block it. -/
def RWMutex.rLock (m : RWMutex) : Option RWMutex :=
  if m.writer then none else some { m with readers := m.readers + 1 }

/-- Method `RUnlock`. -/
def RWMutex.rUnlock (m : RWMutex) : RWMutex :=
  { m with readers := m.readers - 1 }

/-- Where a goroutine running `signupHandler` stands, after its body was decoded. -/
inductive Pc
  /-- Before `usersMu.RLock()` (line 98). -/
  | atRLock
  /-- Before `userColl.FindOne` (line 102). -/
  | atFindOne
  /-- Before `userColl.InsertOne` (line 109). -/
  | atInsertOne
  /-- Status written, the deferred `usersMu.RUnlock()` pending. -/
  | atRUnlock (status : Nat)
  /-- Returned. -/
  | done (status : Nat)
deriving DecidableEq, Repr

/-- A goroutine running `signupHandler` for `user`. -/
structure SignupThread where
  user : User
  pc : Pc
deriving DecidableEq, Repr

/-- The user collection, its guard and the goroutines serving signups. -/
structure UsersSys where
  userColl : List User
  usersMu : RWMutex
  threads : List SignupThread
deriving DecidableEq, Repr

/-- One atomic action of a signup goroutine; `none` when it is blocked or has returned. -/
def SignupThread.step (t : SignupThread) (coll : List User) (mu : RWMutex) :
    Option (SignupThread × List User × RWMutex) :=
  match t.pc with
  | .atRLock => (mu.rLock).map (fun mu1 => ({ t with pc := .atFindOne }, coll, mu1))
  | .atFindOne =>
    match findOne StoreEnv.healthy (fun u => u.username == t.user.username) coll with
    | some _ => some ({ t with pc := .atRUnlock 409 }, coll, mu)
    | none => some ({ t with pc := .atInsertOne }, coll, mu)
  | .atInsertOne =>
    match insertOne StoreEnv.healthy t.user coll with
    | none => some ({ t with pc := .atRUnlock 500 }, coll, mu)
    | some users => some ({ t with pc := .atRUnlock 201 }, users, mu)
  | .atRUnlock status => some ({ t with pc := .done status }, coll, mu.rUnlock)
  | .done _ => none

/-- The scheduler lets goroutine `i` take one action; nothing changes if it cannot. -/
def UsersSys.step (sys : UsersSys) (i : Nat) : UsersSys :=
  match sys.threads.get? i with
  | none => sys
  | some t =>
    match t.step sys.userColl sys.usersMu with
    | none => sys
    | some (t1, coll, mu) => { userColl := coll, usersMu := mu, threads := sys.threads.set i t1 }

/-- Run a schedule: the list of goroutine indices in the order they act. -/
def UsersSys.runSchedule (sys : UsersSys) (schedule : List Nat) : UsersSys :=
  schedule.foldl UsersSys.step sys

/-- The statuses of the goroutines that have returned, `none` for those still running. -/
def UsersSys.statuses (sys : UsersSys) : List (Option Nat) :=
  sys.threads.map (fun t =>
    match t.pc with
    | .done status => some status
    | _ => none)

/-! ## Inputs and shapes used in the statements -/

/-- Two goroutines about to run `signupHandler` for the same username, on an empty user
collection with the guard free. -/
def raceStart : UsersSys :=
  { userColl := [],
    usersMu := { readers := 0, writer := false },
    threads := [{ user := ⟨"a", "p1"⟩, pc := .atRLock }, { user := ⟨"a", "p2"⟩, pc := .atRLock }] }

/-- The request `GET /api/blogs`. -/
def listRequest (body : Body) : Request :=
  { method := "GET", path := ["api", "blogs"], body := body }

/-- The request `POST /api/users`. -/
def usersRequest (body : Body) : Request :=
  { method := "POST", path := ["api", "users"], body := body }

/-- Serve every call of the list, in order, against a store that answers without error. -/
def runHealthy (s : Server) (calls : List Call) : Trace :=
  run s (calls.map (fun c => (StoreEnv.healthy, c)))

/-- Blog `b` after `n` likes addressed to the Blog of id `id`. -/
def Blog.liked (id : Int) (n : Nat) (b : Blog) : Blog :=
  if b.id = id then { b with likes := b.likes + n } else b

/-- Blog `b` after the comments `cs` appended, in this order, to the array of the Blog of
id `id`; a nil slice stays nil. -/
def Blog.commented (id : Int) (cs : List Comment) (b : Blog) : Blog :=
  if b.id = id then { b with comments := b.comments.map (fun old => old ++ cs) } else b

/-- A state with two Blogs, ids 1 and 2, used to instantiate the theorems below: Blog 1 was
created without a `comments` array, Blog 2 with one. -/
def sampleServer : Server :=
  { currentID := 2,
    blogColl := [⟨1, "T", "C", "X", 0, none⟩, ⟨2, "U", "D", "Z", 5, some [⟨"W", "first"⟩]⟩],
    userColl := [] }

/-- The draft `{"title":"T","content":"C","author":"X","likes":9223372036854775807}`. -/
def maxLikesDraft : Blog :=
  ⟨0, "T", "C", "X", 9223372036854775807, none⟩

/-- The state after `POST /api/blogs` with `maxLikesDraft` on the initial state. -/
def maxLikesServer : Server :=
  { currentID := 1, blogColl := [{ maxLikesDraft with id := 1 }], userColl := [] }

/-- The draft `{"title":"T","content":"C","author":"X"}`: no `comments` array. -/
def plainDraft : Blog :=
  ⟨0, "T", "C", "X", 0, none⟩

/-- Status code of the reply, `none` when the process exited instead. -/
def Result.status : Result → Option Nat
  | .reply resp _ => some resp.status
  | .fatal _ => none

/-- A single goroutine about to run `signupHandler` for `u` on the collection `coll`. -/
def aloneStart (coll : List User) (u : User) : UsersSys :=
  { userColl := coll, usersMu := { readers := 0, writer := false },
    threads := [{ user := u, pc := .atRLock }] }

/-! ## Invariants -/

/-- The Blog Store invariant: the ids in the collection are pairwise distinct and none of
them is above the counter. -/
def Inv (s : Server) : Prop :=
  s.ids.Nodup ∧ ∀ i ∈ s.ids, i ≤ s.currentID

/-- Record `b1` is a later version of record `b`: same id, title, content and author, at
least as many likes, and the old comments followed by new ones (a nil slice stays nil). -/
def Descends (b b1 : Blog) : Prop :=
  b1.id = b.id ∧ b1.title = b.title ∧ b1.content = b.content ∧ b1.author = b.author ∧
    b.likes ≤ b1.likes ∧ ∃ t, b1.comments = b.comments.map (fun old => old ++ t)

/-- State `s1` is a later state of `s`: the counter has not gone down, and every Blog of
`s1` is a later version of a Blog of `s` or carries an id above the counter of `s`. -/
def Grows (s s1 : Server) : Prop :=
  s.currentID ≤ s1.currentID ∧
    ∀ b1 ∈ s1.blogColl, (∃ b ∈ s.blogColl, Descends b b1) ∨ s.currentID < b1.id

/-! ## Lemmas on the store primitives -/

theorem scan_healthy (i : Nat) (docs acc : List Blog) :
    scan StoreEnv.healthy i docs acc = some (acc ++ docs) := by
  induction docs generalizing i acc with
  | nil => simp [scan]
  | cons d ds ih =>
    have h : StoreEnv.healthy.decodeErrAt ≠ some i := by simp [StoreEnv.healthy]
    simp only [scan, if_neg h, ih, List.append_assoc, List.singleton_append]

theorem deleteFirst_eq_eraseP {α : Type} (p : α → Bool) (l : List α) :
    deleteFirst p l = l.eraseP p := by
  induction l with
  | nil => rfl
  | cons x xs ih =>
    by_cases h : p x = true
    · simp [deleteFirst, List.eraseP_cons, h]
    · simp [deleteFirst, List.eraseP_cons, h, ih]

theorem deleteFirst_sublist {α : Type} (p : α → Bool) (l : List α) :
    List.Sublist (deleteFirst p l) l := by
  rw [deleteFirst_eq_eraseP]
  exact List.eraseP_sublist l

theorem mem_of_mem_deleteFirst {α : Type} {p : α → Bool} {l : List α} {x : α}
    (h : x ∈ deleteFirst p l) : x ∈ l :=
  (deleteFirst_sublist p l).subset h

theorem deleteFirst_of_forall_not {α : Type} (p : α → Bool) (l : List α)
    (h : ∀ x ∈ l, p x = false) : deleteFirst p l = l := by
  induction l with
  | nil => rfl
  | cons x xs ih =>
    have hx : p x = false := h x (List.mem_cons_self x xs)
    have hxs : ∀ y ∈ xs, p y = false := fun y hy => h y (List.mem_cons_of_mem x hy)
    simp [deleteFirst, hx, ih hxs]

theorem updateFirst_of_forall_not {α : Type} (p : α → Bool) (f : α → Option α) (l : List α)
    (h : ∀ x ∈ l, p x = false) : updateFirst p f l = some l := by
  induction l with
  | nil => rfl
  | cons x xs ih =>
    have hx : p x = false := h x (List.mem_cons_self x xs)
    have hxs : ∀ y ∈ xs, p y = false := fun y hy => h y (List.mem_cons_of_mem x hy)
    simp [updateFirst, hx, ih hxs]

theorem map_updateFirst {α β : Type} (p : α → Bool) (f : α → Option α) (g : α → β)
    (hg : ∀ x y, f x = some y → g y = g x) (l l1 : List α) :
    updateFirst p f l = some l1 → l1.map g = l.map g := by
  induction l generalizing l1 with
  | nil =>
    intro h
    simp only [updateFirst, Option.some.injEq] at h
    rw [← h]
  | cons x xs ih =>
    intro h
    by_cases hp : p x = true
    · simp only [updateFirst, hp, if_true, Option.map_eq_some'] at h
      rcases h with ⟨y, hy, hl⟩
      rw [← hl, List.map_cons, List.map_cons, hg x y hy]
    · have hp1 : p x = false := by simpa using hp
      simp only [updateFirst, hp1, Bool.false_eq_true, if_false, Option.map_eq_some'] at h
      rcases h with ⟨ys, hys, hl⟩
      rw [← hl, List.map_cons, List.map_cons, ih ys hys]

theorem mem_updateFirst {α : Type} {p : α → Bool} {f : α → Option α} {l l1 : List α} {y : α} :
    updateFirst p f l = some l1 → y ∈ l1 → y ∈ l ∨ ∃ x ∈ l, f x = some y := by
  induction l generalizing l1 with
  | nil =>
    intro h hy
    simp only [updateFirst, Option.some.injEq] at h
    rw [← h] at hy
    exact Or.inl hy
  | cons x xs ih =>
    intro h hy
    by_cases hp : p x = true
    · simp only [updateFirst, hp, if_true, Option.map_eq_some'] at h
      rcases h with ⟨z, hz, hl⟩
      rw [← hl, List.mem_cons] at hy
      rcases hy with hy | hy
      · exact Or.inr ⟨x, List.mem_cons_self x xs, hy ▸ hz⟩
      · exact Or.inl (List.mem_cons_of_mem x hy)
    · have hp1 : p x = false := by simpa using hp
      simp only [updateFirst, hp1, Bool.false_eq_true, if_false, Option.map_eq_some'] at h
      rcases h with ⟨ys, hys, hl⟩
      rw [← hl, List.mem_cons] at hy
      rcases hy with hy | hy
      · exact Or.inl (hy ▸ List.mem_cons_self x xs)
      · rcases ih hys hy with h1 | ⟨z, hz, hzy⟩
        · exact Or.inl (List.mem_cons_of_mem x h1)
        · exact Or.inr ⟨z, List.mem_cons_of_mem x hz, hzy⟩

/-- With pairwise distinct ids, an update the store accepts on the Blog of id `id` changes
that Blog and no other. -/
theorem updateFirst_eq_map (id : Int) (f : Blog → Option Blog) (g : Blog → Blog)
    (l : List Blog) (hnd : (l.map Blog.id).Nodup)
    (hf : ∀ b ∈ l, b.id = id → f b = some (g b)) :
    updateFirst (fun b => b.id == id) f l =
      some (l.map (fun b => if b.id = id then g b else b)) := by
  induction l with
  | nil => rfl
  | cons x xs ih =>
    rw [List.map_cons, List.nodup_cons] at hnd
    by_cases h : x.id = id
    · have hxs : ∀ y ∈ xs, y.id ≠ id := by
        intro y hy hyid
        exact hnd.1 (List.mem_map.mpr ⟨y, hy, hyid.trans h.symm⟩)
      have hmap : xs.map (fun b => if b.id = id then g b else b) = xs := by
        conv_rhs => rw [← List.map_id xs]
        apply List.map_congr_left
        intro y hy
        simp [hxs y hy]
      simp [updateFirst, h, hmap, hf x (List.mem_cons_self x xs) h]
    · have hfxs : ∀ b ∈ xs, b.id = id → f b = some (g b) :=
        fun b hb => hf b (List.mem_cons_of_mem x hb)
      simp [updateFirst, h, ih hnd.2 hfxs]

/-- With pairwise distinct ids, an update the store rejects on the Blog of id `id` is an
error of the whole call. -/
theorem updateFirst_eq_none (id : Int) (f : Blog → Option Blog) (l : List Blog)
    (hnd : (l.map Blog.id).Nodup) (b : Blog) (hb : b ∈ l) (hid : b.id = id)
    (hf : f b = none) : updateFirst (fun b => b.id == id) f l = none := by
  induction l with
  | nil => simp at hb
  | cons x xs ih =>
    by_cases h : x.id = id
    · have hxb : x = b :=
        List.inj_on_of_nodup_map hnd (List.mem_cons_self x xs) hb (h.trans hid.symm)
      subst hxb
      simp [updateFirst, h, hf]
    · rw [List.map_cons, List.nodup_cons] at hnd
      have hbxs : b ∈ xs := by
        rcases List.mem_cons.mp hb with hbx | hbxs
        · exact absurd (hbx ▸ hid) h
        · exact hbxs
      simp [updateFirst, h, ih hnd.2 hbxs]

/-- With pairwise distinct ids, deleting the first Blog of id `id` is deleting every Blog
of id `id`. -/
theorem deleteFirst_eq_filter (id : Int) (l : List Blog) (hnd : (l.map Blog.id).Nodup) :
    deleteFirst (fun b => b.id == id) l = l.filter (fun b => b.id != id) := by
  induction l with
  | nil => rfl
  | cons x xs ih =>
    rw [List.map_cons, List.nodup_cons] at hnd
    by_cases h : x.id = id
    · have hxs : ∀ y ∈ xs, y.id ≠ id := by
        intro y hy hyid
        exact hnd.1 (List.mem_map.mpr ⟨y, hy, hyid.trans h.symm⟩)
      have hfil : xs.filter (fun b => b.id != id) = xs := by
        apply List.filter_eq_self.mpr
        intro y hy
        simp [hxs y hy]
      simp [deleteFirst, h, hfil]
    · simp [deleteFirst, h, ih hnd.2]

/-! ## Every handler keeps the invariant -/

theorem run_nil (s : Server) :
    run s [] = { responses := [], server := s, exited := false } := rfl

theorem run_cons_fatal (s s1 : Server) (x : StoreEnv × Call) (rest : List (StoreEnv × Call))
    (h : x.2.exec x.1 s = .fatal s1) :
    run s (x :: rest) = { responses := [], server := s1, exited := true } := by
  simp [run, runWith, h]

theorem run_cons_reply (s s1 : Server) (resp : Response) (x : StoreEnv × Call)
    (rest : List (StoreEnv × Call)) (h : x.2.exec x.1 s = .reply resp s1) :
    run s (x :: rest) =
      { responses := resp :: (run s1 rest).responses, server := (run s1 rest).server,
        exited := (run s1 rest).exited } := by
  simp [run, runWith, h]

theorem ids_le_of_inv {s : Server} (h : Inv s) {b : Blog} (hb : b ∈ s.blogColl) :
    b.id ≤ s.currentID :=
  h.2 b.id (List.mem_map.mpr ⟨b, hb, rfl⟩)

theorem inv_initial : Inv Server.initial := by
  simp [Inv, Server.initial, Server.ids]

theorem inv_of_update (s : Server) (p : Blog → Bool) (f : Blog → Option Blog)
    (hf : ∀ b b1, f b = some b1 → b1.id = b.id) (blogs : List Blog)
    (hu : updateFirst p f s.blogColl = some blogs) (h : Inv s) :
    Inv { s with blogColl := blogs } := by
  unfold Inv Server.ids at *
  simp only [map_updateFirst p f Blog.id hf s.blogColl blogs hu]
  exact h

theorem incLikes_some {b b1 : Blog} (h : incLikes b = some b1) :
    b1 = { b with likes := b.likes + 1 } ∧ b.likes + 1 ≤ maxInt64 := by
  unfold incLikes at h
  split at h
  · rename_i hle
    injection h with h
    exact ⟨h.symm, hle⟩
  · simp at h

theorem pushComment_some {c : Comment} {b b1 : Blog} (h : pushComment c b = some b1) :
    ∃ cs, b.comments = some cs ∧ b1 = { b with comments := some (cs ++ [c]) } := by
  unfold pushComment at h
  split at h
  · simp at h
  · rename_i cs hcs
    injection h with h
    exact ⟨cs, hcs, h.symm⟩

theorem inv_of_delete (s : Server) (p : Blog → Bool) (h : Inv s) :
    Inv { s with blogColl := deleteFirst p s.blogColl } := by
  unfold Inv Server.ids at *
  have hsub : List.Sublist ((deleteFirst p s.blogColl).map Blog.id) (s.blogColl.map Blog.id) :=
    (deleteFirst_sublist p s.blogColl).map Blog.id
  exact ⟨h.1.sublist hsub, fun i hi => h.2 i (hsub.subset hi)⟩

theorem inv_of_create (s : Server) (draft : Blog) (h : Inv s) :
    Inv { s with currentID := s.currentID + 1,
                 blogColl := s.blogColl ++ [{ draft with id := s.currentID + 1 }] } := by
  unfold Inv Server.ids at *
  simp only [List.map_append, List.map_cons, List.map_nil]
  constructor
  · rw [List.nodup_append]
    refine ⟨h.1, List.nodup_singleton _, ?_⟩
    intro i hi hi1
    have hle := h.2 i hi
    simp only [List.mem_singleton] at hi1
    omega
  · intro i hi
    rw [List.mem_append, List.mem_singleton] at hi
    rcases hi with hi | hi
    · have hle := h.2 i hi
      omega
    · omega

theorem inv_of_counter (s : Server) (h : Inv s) :
    Inv { s with currentID := s.currentID + 1 } := by
  unfold Inv Server.ids at *
  exact ⟨h.1, fun i hi => by have hle := h.2 i hi; simp only; omega⟩

theorem inv_of_users (s : Server) (users : List User) (h : Inv s) :
    Inv { s with userColl := users } := h

/-- Every handler invocation, whatever the store does, keeps the invariant. -/
theorem exec_inv (env : StoreEnv) (s : Server) (c : Call) (h : Inv s) :
    Inv (c.exec env s).server := by
  cases c with
  | login body =>
    cases body with
    | none => exact h
    | some u =>
      simp only [Call.exec, loginHandler]
      split <;> exact h
  | signup body =>
    cases body with
    | none => exact h
    | some u =>
      simp only [Call.exec, signupHandler]
      split
      · exact h
      · split
        · exact h
        · exact inv_of_users s _ h
  | getBlogs =>
    simp only [Call.exec, getBlogsHandler]
    split
    · exact h
    · split <;> exact h
  | createBlog body =>
    cases body with
    | none => exact h
    | some draft =>
      simp only [Call.exec, createBlogHandler, insertOne]
      by_cases hw : env.writeErr = true
      · simp only [hw, if_true, Result.server]
        exact inv_of_counter s h
      · simp only [hw, Bool.false_eq_true, if_false, Result.server]
        exact inv_of_create s draft h
  | deleteBlog idVar =>
    cases idVar with
    | none => exact h
    | some id =>
      simp only [Call.exec, deleteBlogHandler, deleteOne]
      by_cases hw : env.writeErr = true
      · simp only [hw, if_true, Result.server]
        exact h
      · simp only [hw, Bool.false_eq_true, if_false, Result.server]
        exact inv_of_delete s _ h
  | likeBlog idVar =>
    cases idVar with
    | none => exact h
    | some id =>
      simp only [Call.exec, likeBlogHandler, updateOne]
      by_cases hw : env.writeErr = true
      · simp only [hw, if_true, Result.server]
        exact h
      · simp only [hw, Bool.false_eq_true, if_false]
        cases hu : updateFirst (fun b => b.id == id) incLikes s.blogColl with
        | none => exact h
        | some blogs =>
          exact inv_of_update s _ _ (fun b b1 hb => by rw [(incLikes_some hb).1]) blogs hu h
  | commentBlog idVar body =>
    cases idVar with
    | none => exact h
    | some id =>
      cases body with
      | none => exact h
      | some c =>
        simp only [Call.exec, commentBlogHandler, updateOne]
        by_cases hw : env.writeErr = true
        · simp only [hw, if_true, Result.server]
          exact h
        · simp only [hw, Bool.false_eq_true, if_false]
          cases hu : updateFirst (fun b => b.id == id) (pushComment c) s.blogColl with
          | none => exact h
          | some blogs =>
            refine inv_of_update s _ _ (fun b b1 hb => ?_) blogs hu h
            rcases pushComment_some hb with ⟨cs, _, hb1⟩
            rw [hb1]

/-- The invariant holds after every sequential run that starts in a state where it holds. -/
theorem run_inv (s : Server) (calls : List (StoreEnv × Call)) (h : Inv s) :
    Inv (run s calls).server := by
  induction calls generalizing s with
  | nil => exact h
  | cons x rest ih =>
    have hstep := exec_inv x.1 s x.2 h
    cases hx : x.2.exec x.1 s with
    | fatal s1 =>
      rw [run_cons_fatal s s1 x rest hx]
      rw [hx] at hstep
      exact hstep
    | reply resp s1 =>
      rw [run_cons_reply s s1 resp x rest hx]
      rw [hx] at hstep
      exact ih s1 hstep

/-! ## The ids handed out by creates -/

theorem assignedIds_cons_other (st : Nat) (pl : Payload) (rest : List Response)
    (h : ∀ b, pl ≠ .blog b) :
    assignedIds (⟨st, pl⟩ :: rest) = assignedIds rest ∧
      createdCount (⟨st, pl⟩ :: rest) = createdCount rest := by
  cases pl with
  | blog b => exact absurd rfl (h b)
  | empty => constructor <;> simp [assignedIds, createdCount]
  | text m => constructor <;> simp [assignedIds, createdCount]
  | blogs bs => constructor <;> simp [assignedIds, createdCount]

theorem assignedIds_cons_created (b : Blog) (rest : List Response) :
    assignedIds (⟨201, .blog b⟩ :: rest) = b.id :: assignedIds rest ∧
      createdCount (⟨201, .blog b⟩ :: rest) = createdCount rest + 1 := by
  constructor <;> simp [assignedIds, createdCount]

/-- A reply is either that of a successful create, which hands out the counter plus one
and advances the counter by one, or leaves the counter alone and hands out nothing. -/
theorem exec_reply_cases (env : StoreEnv) (s s1 : Server) (c : Call) (resp : Response)
    (rest : List Response) (h : c.exec env s = .reply resp s1) :
    (assignedIds (resp :: rest) = (s.currentID + 1) :: assignedIds rest ∧
        createdCount (resp :: rest) = createdCount rest + 1 ∧
        s1.currentID = s.currentID + 1) ∨
      (assignedIds (resp :: rest) = assignedIds rest ∧
        createdCount (resp :: rest) = createdCount rest ∧ s1.currentID = s.currentID) := by
  have other : ∀ (st : Nat) (pl : Payload) (s2 : Server),
      Result.reply ⟨st, pl⟩ s2 = Result.reply resp s1 → (∀ b, pl ≠ .blog b) →
      s2.currentID = s.currentID →
      (assignedIds (resp :: rest) = assignedIds rest ∧
        createdCount (resp :: rest) = createdCount rest ∧ s1.currentID = s.currentID) := by
    intro st pl s2 heq hpl hid
    injection heq with h1 h2
    subst h1 h2
    exact ⟨(assignedIds_cons_other st pl rest hpl).1, (assignedIds_cons_other st pl rest hpl).2,
      hid⟩
  cases c with
  | login body =>
    right
    simp only [Call.exec, loginHandler] at h
    split at h
    · exact other _ _ _ h (by simp) rfl
    · split at h <;> exact other _ _ _ h (by simp) rfl
  | signup body =>
    right
    simp only [Call.exec, signupHandler] at h
    split at h
    · exact other _ _ _ h (by simp) rfl
    · split at h
      · exact other _ _ _ h (by simp) rfl
      · split at h <;> exact other _ _ _ h (by simp) rfl
  | getBlogs =>
    right
    simp only [Call.exec, getBlogsHandler] at h
    split at h
    · exact absurd h (by simp)
    · split at h
      · exact absurd h (by simp)
      · exact other _ _ _ h (by simp) rfl
  | createBlog body =>
    simp only [Call.exec, createBlogHandler] at h
    split at h
    · right
      exact other _ _ _ h (by simp) rfl
    · split at h
      · exact absurd h (by simp)
      · left
        injection h with h1 h2
        subst h1 h2
        exact ⟨(assignedIds_cons_created _ rest).1, (assignedIds_cons_created _ rest).2, rfl⟩
  | deleteBlog idVar =>
    right
    simp only [Call.exec, deleteBlogHandler] at h
    split at h
    · exact other _ _ _ h (by simp) rfl
    · split at h <;> exact other _ _ _ h (by simp) rfl
  | likeBlog idVar =>
    right
    simp only [Call.exec, likeBlogHandler] at h
    split at h
    · exact other _ _ _ h (by simp) rfl
    · split at h <;> exact other _ _ _ h (by simp) rfl
  | commentBlog idVar body =>
    right
    simp only [Call.exec, commentBlogHandler] at h
    split at h
    · exact other _ _ _ h (by simp) rfl
    · split at h
      · exact other _ _ _ h (by simp) rfl
      · split at h <;> exact other _ _ _ h (by simp) rfl

/-- From any state, the successful creates of a run hand out the ids that follow the
counter, one after the other. -/
theorem run_assignedIds (s : Server) (calls : List (StoreEnv × Call)) :
    assignedIds (run s calls).responses =
      (List.range (createdCount (run s calls).responses)).map
        (fun (i : Nat) => s.currentID + 1 + (i : Int)) := by
  induction calls generalizing s with
  | nil => simp [run_nil, assignedIds, createdCount]
  | cons x rest ih =>
    cases hx : x.2.exec x.1 s with
    | fatal s1 =>
      rw [run_cons_fatal s s1 x rest hx]
      simp [assignedIds, createdCount]
    | reply resp s1 =>
      rw [run_cons_reply s s1 resp x rest hx]
      simp only
      rcases exec_reply_cases x.1 s s1 x.2 resp (run s1 rest).responses hx with
        ⟨ha, hc, hid⟩ | ⟨ha, hc, hid⟩
      · rw [ha, hc, ih s1, hid, List.range_succ_eq_map, List.map_cons, List.map_map]
        congr 1
        · simp
        · apply List.map_congr_left
          intro i _
          simp only [Function.comp, Nat.cast_succ]
          omega
      · rw [ha, hc, ih s1, hid]

/-! ## The route table -/

theorem matchReq_handler (rt : Route) (r : Request) (h : Handler) (vs : List (String × String))
    (hm : rt.matchReq r = some (h, vs)) : h = rt.handler := by
  unfold Route.matchReq at hm
  split at hm
  · cases hp : matchPath rt.path r.path with
    | none => simp [hp] at hm
    | some ws =>
      simp only [hp, Option.map_some', Option.some.injEq, Prod.mk.injEq] at hm
      exact hm.1.symm
  · simp at hm

/-- The router never selects the signup route: the login route, registered first, matches
every request the signup route matches. -/
theorem routerMatch_ne_signup (r : Request) (vs : List (String × String)) :
    routerMatch routes r ≠ some (.signup, vs) := by
  intro h
  simp only [routerMatch, routes, List.findSome?] at h
  split at h
  · rename_i p hp
    injection h with h
    subst h
    have := matchReq_handler _ r _ _ hp
    simp at this
  · rename_i hlogin
    split at h
    · rename_i p hp
      simp only [Route.matchReq] at hlogin hp
      split at hp
      · rename_i hmeth
        rw [if_pos hmeth, Option.map_eq_none'] at hlogin
        rw [hlogin] at hp
        simp at hp
      · simp at hp
    · repeat
        first
        | (split at h
           · rename_i p hp
             injection h with h
             subst h
             have := matchReq_handler _ r _ _ hp
             simp at this)
        | simp at h

theorem dispatch_ne_signup (r : Request) (u : Option User) : dispatch r ≠ some (.signup u) := by
  intro h
  unfold dispatch at h
  split at h <;> first
    | (rename_i vs hm; exact routerMatch_ne_signup r vs hm)
    | simp at h

theorem dispatch_usersRequest (body : Body) :
    dispatch (usersRequest body) = some (.login body.asUser) := by
  simp [dispatch, usersRequest, routerMatch, routes, List.findSome?, Route.matchReq, matchPath]

theorem dispatch_listRequest (body : Body) : dispatch (listRequest body) = some .getBlogs := by
  simp [dispatch, listRequest, routerMatch, routes, List.findSome?, Route.matchReq, matchPath]

/-! ## The cursor loop under a decoding error -/

theorem scan_decodeErr (env : StoreEnv) (k : Nat) (hk : env.decodeErrAt = some k)
    (i : Nat) (docs acc : List Blog) (hi : i ≤ k) (hlt : k < i + docs.length) :
    scan env i docs acc = none := by
  induction docs generalizing i acc with
  | nil => simp at hlt; omega
  | cons d ds ih =>
    by_cases hik : i = k
    · simp [scan, hk, hik]
    · have hne : env.decodeErrAt ≠ some i := by
        rw [hk]
        intro h
        injection h with h
        exact hik h.symm
      simp only [scan, if_neg hne]
      apply ih
      · omega
      · simp only [List.length_cons] at hlt
        omega

/-! ## The user collection -/

theorem findOne_healthy {α : Type} (p : α → Bool) (l : List α) :
    findOne StoreEnv.healthy p l = l.find? p := by
  simp [findOne, StoreEnv.healthy]

theorem insertOne_healthy {α : Type} (d : α) (l : List α) :
    insertOne StoreEnv.healthy d l = some (l ++ [d]) := by
  simp [insertOne, StoreEnv.healthy]

theorem signupHandler_taken (s : Server) (u : User)
    (h : ∃ x ∈ s.userColl, x.username = u.username) :
    signupHandler StoreEnv.healthy s (some u) =
      .reply ⟨409, .text "Username is already taken"⟩ s := by
  simp only [signupHandler, findOne_healthy]
  cases hf : s.userColl.find? (fun x => x.username == u.username) with
  | some y => rfl
  | none =>
    rcases h with ⟨x, hx, hxu⟩
    have := List.find?_eq_none.mp hf x hx
    simp [hxu] at this

theorem signupHandler_fresh (s : Server) (u : User)
    (h : ∀ x ∈ s.userColl, x.username ≠ u.username) :
    signupHandler StoreEnv.healthy s (some u) =
      .reply ⟨201, .empty⟩ { s with userColl := s.userColl ++ [u] } := by
  have hf : s.userColl.find? (fun x => x.username == u.username) = none := by
    apply List.find?_eq_none.mpr
    intro x hx
    simpa using h x hx
  simp only [signupHandler, findOne_healthy, hf, insertOne_healthy]

/-- Against a store that answers without error, every handler keeps the usernames
pairwise distinct. -/
theorem exec_usernames (s : Server) (c : Call) (h : s.usernames.Nodup) :
    (c.exec StoreEnv.healthy s).server.usernames.Nodup := by
  cases c with
  | login body =>
    cases body with
    | none => exact h
    | some u =>
      simp only [Call.exec, loginHandler]
      split <;> exact h
  | signup body =>
    cases body with
    | none => exact h
    | some u =>
      by_cases hex : ∃ x ∈ s.userColl, x.username = u.username
      · simp only [Call.exec, signupHandler_taken s u hex]
        exact h
      · have hall : ∀ x ∈ s.userColl, x.username ≠ u.username :=
          fun x hx hxu => hex ⟨x, hx, hxu⟩
        simp only [Call.exec, signupHandler_fresh s u hall, Result.server, Server.usernames,
          List.map_append, List.map_cons, List.map_nil]
        rw [List.nodup_append]
        refine ⟨h, List.nodup_singleton _, ?_⟩
        intro n hn hn1
        rw [List.mem_singleton] at hn1
        rcases List.mem_map.mp hn with ⟨x, hx, hxn⟩
        exact hall x hx (hxn.trans hn1)
  | getBlogs =>
    simp only [Call.exec, getBlogsHandler]
    split
    · exact h
    · split <;> exact h
  | createBlog body =>
    cases body with
    | none => exact h
    | some draft =>
      simp only [Call.exec, createBlogHandler]
      split <;> exact h
  | deleteBlog idVar =>
    cases idVar with
    | none => exact h
    | some id =>
      simp only [Call.exec, deleteBlogHandler]
      split <;> exact h
  | likeBlog idVar =>
    cases idVar with
    | none => exact h
    | some id =>
      simp only [Call.exec, likeBlogHandler]
      split <;> exact h
  | commentBlog idVar body =>
    cases idVar with
    | none => exact h
    | some id =>
      cases body with
      | none => exact h
      | some c =>
        simp only [Call.exec, commentBlogHandler]
        split <;> exact h

theorem runHealthy_nil (s : Server) :
    runHealthy s [] = { responses := [], server := s, exited := false } := rfl

theorem runHealthy_cons_reply (s s1 : Server) (resp : Response) (c : Call) (rest : List Call)
    (h : c.exec StoreEnv.healthy s = .reply resp s1) :
    runHealthy s (c :: rest) =
      { responses := resp :: (runHealthy s1 rest).responses,
        server := (runHealthy s1 rest).server, exited := (runHealthy s1 rest).exited } := by
  simp only [runHealthy, List.map_cons]
  exact run_cons_reply s s1 resp (StoreEnv.healthy, c) _ h

theorem runHealthy_cons_fatal (s s1 : Server) (c : Call) (rest : List Call)
    (h : c.exec StoreEnv.healthy s = .fatal s1) :
    runHealthy s (c :: rest) = { responses := [], server := s1, exited := true } := by
  simp only [runHealthy, List.map_cons]
  exact run_cons_fatal s s1 (StoreEnv.healthy, c) _ h

theorem runHealthy_usernames (s : Server) (calls : List Call) (h : s.usernames.Nodup) :
    (runHealthy s calls).server.usernames.Nodup := by
  induction calls generalizing s with
  | nil => exact h
  | cons c rest ih =>
    have hstep := exec_usernames s c h
    cases hx : c.exec StoreEnv.healthy s with
    | fatal s1 =>
      rw [runHealthy_cons_fatal s s1 c rest hx]
      rw [hx] at hstep
      exact hstep
    | reply resp s1 =>
      rw [runHealthy_cons_reply s s1 resp c rest hx]
      rw [hx] at hstep
      exact ih s1 hstep

theorem loginHandler_ok_iff (s : Server) (u p : String) :
    loginHandler StoreEnv.healthy s (some ⟨u, p⟩) = .reply ⟨200, .empty⟩ s ↔
      ∃ x ∈ s.userColl, x.username = u ∧ x.password = p := by
  simp only [loginHandler, findOne_healthy]
  cases hf : s.userColl.find? (fun x => x.username == u && x.password == p) with
  | some y =>
    have hy := List.find?_some hf
    have hmem := List.mem_of_find?_eq_some hf
    simp only [Bool.and_eq_true, beq_iff_eq] at hy
    simp only [true_iff]
    exact ⟨y, hmem, hy⟩
  | none =>
    have hnone := List.find?_eq_none.mp hf
    constructor
    · intro h
      simp at h
    · rintro ⟨x, hx, hxu, hxp⟩
      have := hnone x hx
      simp [hxu, hxp] at this

theorem loginHandler_ok_or_unauthorized (s : Server) (u p : String) :
    loginHandler StoreEnv.healthy s (some ⟨u, p⟩) = .reply ⟨200, .empty⟩ s ∨
      loginHandler StoreEnv.healthy s (some ⟨u, p⟩) =
        .reply ⟨401, .text "Invalid credentials"⟩ s := by
  simp only [loginHandler]
  split
  · exact Or.inl rfl
  · exact Or.inr rfl

theorem loginHandler_server (env : StoreEnv) (s : Server) (body : Option User) :
    (loginHandler env s body).server = s := by
  unfold loginHandler
  split
  · rfl
  · split <;> rfl

/-! ## Blogs only grow -/

theorem descends_refl (b : Blog) : Descends b b := by
  refine ⟨rfl, rfl, rfl, rfl, le_refl _, [], ?_⟩
  cases b.comments <;> simp

theorem descends_trans {a b c : Blog} (hab : Descends a b) (hbc : Descends b c) :
    Descends a c := by
  rcases hab with ⟨h1, h2, h3, h4, h5, t, h6⟩
  rcases hbc with ⟨k1, k2, k3, k4, k5, u, k6⟩
  refine ⟨k1.trans h1, k2.trans h2, k3.trans h3, k4.trans h4, le_trans h5 k5, t ++ u, ?_⟩
  rw [k6, h6]
  cases a.comments <;> simp

theorem grows_refl (s : Server) : Grows s s :=
  ⟨le_refl _, fun b hb => Or.inl ⟨b, hb, descends_refl b⟩⟩

theorem grows_trans {s s1 s2 : Server} (h1 : Grows s s1) (h2 : Grows s1 s2) : Grows s s2 := by
  refine ⟨le_trans h1.1 h2.1, ?_⟩
  intro b2 hb2
  rcases h2.2 b2 hb2 with ⟨b1, hb1, hd12⟩ | hnew
  · rcases h1.2 b1 hb1 with ⟨b, hb, hd⟩ | hnew1
    · exact Or.inl ⟨b, hb, descends_trans hd hd12⟩
    · right
      rw [hd12.1]
      exact hnew1
  · right
    exact lt_of_le_of_lt h1.1 hnew

theorem grows_of_subset (s : Server) (cid : Int) (blogs : List Blog) (users : List User)
    (hc : s.currentID ≤ cid) (h : ∀ b ∈ blogs, b ∈ s.blogColl) :
    Grows s { currentID := cid, blogColl := blogs, userColl := users } :=
  ⟨hc, fun b hb => Or.inl ⟨b, h b hb, descends_refl b⟩⟩

theorem grows_of_update (s : Server) (p : Blog → Bool) (f : Blog → Option Blog)
    (hf : ∀ b b1, f b = some b1 → Descends b b1) (blogs : List Blog)
    (hu : updateFirst p f s.blogColl = some blogs) :
    Grows s { s with blogColl := blogs } := by
  refine ⟨le_refl _, ?_⟩
  intro b1 hb1
  left
  rcases mem_updateFirst hu hb1 with h | ⟨b, hb, hbf⟩
  · exact ⟨b1, h, descends_refl b1⟩
  · exact ⟨b, hb, hf b b1 hbf⟩

theorem descends_incLikes {b b1 : Blog} (h : incLikes b = some b1) : Descends b b1 := by
  rw [(incLikes_some h).1]
  refine ⟨rfl, rfl, rfl, rfl, by simp only; omega, [], ?_⟩
  cases b.comments <;> simp

theorem descends_pushComment {c : Comment} {b b1 : Blog} (h : pushComment c b = some b1) :
    Descends b b1 := by
  rcases pushComment_some h with ⟨cs, hcs, hb1⟩
  rw [hb1]
  exact ⟨rfl, rfl, rfl, rfl, le_refl _, [c], by simp [hcs]⟩

theorem grows_of_create (s : Server) (draft : Blog) :
    Grows s { s with currentID := s.currentID + 1,
                     blogColl := s.blogColl ++ [{ draft with id := s.currentID + 1 }] } := by
  refine ⟨by simp only; omega, ?_⟩
  intro b1 hb1
  simp only [List.mem_append, List.mem_singleton] at hb1
  rcases hb1 with h | h
  · exact Or.inl ⟨b1, h, descends_refl b1⟩
  · right
    rw [h]
    simp only
    omega

/-- Every handler invocation, whatever the store does, only lets the collection grow. -/
theorem exec_grows (env : StoreEnv) (s : Server) (c : Call) : Grows s (c.exec env s).server := by
  cases c with
  | login body =>
    rw [Call.exec, loginHandler_server]
    exact grows_refl s
  | signup body =>
    cases body with
    | none => exact grows_refl s
    | some u =>
      simp only [Call.exec, signupHandler]
      split
      · exact grows_refl s
      · split
        · exact grows_refl s
        · exact grows_of_subset s _ _ _ (le_refl _) (fun b hb => hb)
  | getBlogs =>
    simp only [Call.exec, getBlogsHandler]
    split
    · exact grows_refl s
    · split <;> exact grows_refl s
  | createBlog body =>
    cases body with
    | none => exact grows_refl s
    | some draft =>
      simp only [Call.exec, createBlogHandler, insertOne]
      by_cases hw : env.writeErr = true
      · simp only [hw, if_true, Result.server]
        exact grows_of_subset s _ _ _ (by omega) (fun b hb => hb)
      · simp only [hw, Bool.false_eq_true, if_false, Result.server]
        exact grows_of_create s draft
  | deleteBlog idVar =>
    cases idVar with
    | none => exact grows_refl s
    | some id =>
      simp only [Call.exec, deleteBlogHandler, deleteOne]
      by_cases hw : env.writeErr = true
      · simp only [hw, if_true, Result.server]
        exact grows_refl s
      · simp only [hw, Bool.false_eq_true, if_false, Result.server]
        exact grows_of_subset s _ _ _ (le_refl _) (fun b hb => mem_of_mem_deleteFirst hb)
  | likeBlog idVar =>
    cases idVar with
    | none => exact grows_refl s
    | some id =>
      simp only [Call.exec, likeBlogHandler, updateOne]
      by_cases hw : env.writeErr = true
      · simp only [hw, if_true, Result.server]
        exact grows_refl s
      · simp only [hw, Bool.false_eq_true, if_false]
        cases hu : updateFirst (fun b => b.id == id) incLikes s.blogColl with
        | none => exact grows_refl s
        | some blogs =>
          exact grows_of_update s _ _ (fun b b1 hb => descends_incLikes hb) blogs hu
  | commentBlog idVar body =>
    cases idVar with
    | none => exact grows_refl s
    | some id =>
      cases body with
      | none => exact grows_refl s
      | some c =>
        simp only [Call.exec, commentBlogHandler, updateOne]
        by_cases hw : env.writeErr = true
        · simp only [hw, if_true, Result.server]
          exact grows_refl s
        · simp only [hw, Bool.false_eq_true, if_false]
          cases hu : updateFirst (fun b => b.id == id) (pushComment c) s.blogColl with
          | none => exact grows_refl s
          | some blogs =>
            exact grows_of_update s _ _ (fun b b1 hb => descends_pushComment hb) blogs hu

theorem run_grows (s : Server) (calls : List (StoreEnv × Call)) :
    Grows s (run s calls).server := by
  induction calls generalizing s with
  | nil => exact grows_refl s
  | cons x rest ih =>
    have hstep := exec_grows x.1 s x.2
    cases hx : x.2.exec x.1 s with
    | fatal s1 =>
      rw [run_cons_fatal s s1 x rest hx]
      rw [hx] at hstep
      exact hstep
    | reply resp s1 =>
      rw [run_cons_reply s s1 resp x rest hx]
      rw [hx] at hstep
      exact grows_trans hstep (ih s1)

/-- In a state that satisfies the invariant, a Blog found later under the same id is a
later version of the same record. -/
theorem descends_of_grows {s s1 : Server} (hinv : Inv s) (hg : Grows s s1) {b b1 : Blog}
    (hb : b ∈ s.blogColl) (hb1 : b1 ∈ s1.blogColl) (hid : b1.id = b.id) : Descends b b1 := by
  rcases hg.2 b1 hb1 with ⟨b0, hb0, hd⟩ | hnew
  · have heq : b0 = b := by
      apply List.inj_on_of_nodup_map hinv.1 hb0 hb
      rw [← hd.1, hid]
    rw [← heq]
    exact hd
  · have hle := ids_le_of_inv hinv hb
    omega

theorem length_deleteFirst {α : Type} (p : α → Bool) (l : List α) (h : ∃ x ∈ l, p x = true) :
    (deleteFirst p l).length + 1 = l.length := by
  induction l with
  | nil => simp at h
  | cons x xs ih =>
    by_cases hp : p x = true
    · simp [deleteFirst, hp]
    · have hx : ∃ y ∈ xs, p y = true := by
        rcases h with ⟨y, hy, hpy⟩
        rcases List.mem_cons.mp hy with hyx | hyxs
        · exact absurd (hyx ▸ hpy) hp
        · exact ⟨y, hyxs, hpy⟩
      simp [deleteFirst, hp, ih hx]

/-! ## Likes, comments and deletes on a collection with distinct ids -/

theorem ids_map_liked (id : Int) (n : Nat) (l : List Blog) :
    (l.map (Blog.liked id n)).map Blog.id = l.map Blog.id := by
  rw [List.map_map]
  apply List.map_congr_left
  intro b _
  simp only [Function.comp, Blog.liked]
  split <;> rfl

theorem ids_map_commented (id : Int) (cs : List Comment) (l : List Blog) :
    (l.map (Blog.commented id cs)).map Blog.id = l.map Blog.id := by
  rw [List.map_map]
  apply List.map_congr_left
  intro b _
  simp only [Function.comp, Blog.commented]
  split <;> rfl

theorem liked_zero (id : Int) (b : Blog) : Blog.liked id 0 b = b := by
  simp [Blog.liked]

theorem liked_liked (id : Int) (n : Nat) (b : Blog) :
    Blog.liked id n (Blog.liked id 1 b) = Blog.liked id (n + 1) b := by
  by_cases h : b.id = id
  · simp only [Blog.liked, h, if_true]
    congr 1
    push_cast
    omega
  · simp [Blog.liked, h]

theorem commented_nil (id : Int) (b : Blog) : Blog.commented id [] b = b := by
  unfold Blog.commented
  split
  · cases b with
    | mk i t c a l cs => cases cs <;> simp
  · rfl

theorem commented_commented (id : Int) (c : Comment) (cs : List Comment) (b : Blog) :
    Blog.commented id cs (Blog.commented id [c] b) = Blog.commented id (c :: cs) b := by
  by_cases h : b.id = id
  · cases b with
    | mk i t c1 a l old =>
      simp only at h
      cases old <;> simp [Blog.commented, h]
  · simp [Blog.commented, h]

/-- On distinct ids, a like on a Blog whose likes are below the 64-bit maximum. -/
theorem likeBlogHandler_healthy (s : Server) (id : Int) (hnd : s.ids.Nodup)
    (hlt : ∀ b ∈ s.blogColl, b.id = id → b.likes < maxInt64) :
    likeBlogHandler StoreEnv.healthy s (some id) =
      .reply ⟨200, .empty⟩ { s with blogColl := s.blogColl.map (Blog.liked id 1) } := by
  have hf : ∀ b ∈ s.blogColl, b.id = id →
      incLikes b = some { b with likes := b.likes + 1 } := by
    intro b hb hid
    have := hlt b hb hid
    unfold incLikes
    rw [if_pos (by omega)]
  simp only [likeBlogHandler, updateOne, StoreEnv.healthy, Bool.false_eq_true, if_false]
  rw [updateFirst_eq_map id incLikes _ s.blogColl hnd hf]
  rfl

/-- On distinct ids, a like on a Blog whose likes are at the 64-bit maximum: the store
rejects the `$inc`, the handler takes its error branch and nothing changes. -/
theorem likeBlogHandler_overflow (s : Server) (id : Int) (hnd : s.ids.Nodup) (b : Blog)
    (hb : b ∈ s.blogColl) (hid : b.id = id) (hmax : maxInt64 ≤ b.likes) :
    likeBlogHandler StoreEnv.healthy s (some id) =
      .reply ⟨404, .text "Blog not found"⟩ s := by
  have hf : incLikes b = none := by
    unfold incLikes
    rw [if_neg (by omega)]
  simp only [likeBlogHandler, updateOne, StoreEnv.healthy, Bool.false_eq_true, if_false]
  rw [updateFirst_eq_none id incLikes s.blogColl hnd b hb hid hf]

/-- On distinct ids, a comment on a Blog that holds an array of comments. -/
theorem commentBlogHandler_array (s : Server) (id : Int) (c : Comment) (hnd : s.ids.Nodup)
    (harr : ∀ b ∈ s.blogColl, b.id = id → b.comments ≠ none) :
    commentBlogHandler StoreEnv.healthy s (some id) (some c) =
      .reply ⟨200, .empty⟩ { s with blogColl := s.blogColl.map (Blog.commented id [c]) } := by
  have hf : ∀ b ∈ s.blogColl, b.id = id →
      pushComment c b =
        some { b with comments := b.comments.map (fun old => old ++ [c]) } := by
    intro b hb hid
    have := harr b hb hid
    unfold pushComment
    cases hc : b.comments with
    | none => exact absurd hc this
    | some cs => simp
  simp only [commentBlogHandler, updateOne, StoreEnv.healthy, Bool.false_eq_true, if_false]
  rw [updateFirst_eq_map id (pushComment c) _ s.blogColl hnd hf]
  rfl

/-- On distinct ids, a comment on a Blog whose `comments` is the nil slice: the store
rejects the `$push`, the handler takes its error branch and nothing changes. -/
theorem commentBlogHandler_nil (s : Server) (id : Int) (c : Comment) (hnd : s.ids.Nodup)
    (b : Blog) (hb : b ∈ s.blogColl) (hid : b.id = id) (hnil : b.comments = none) :
    commentBlogHandler StoreEnv.healthy s (some id) (some c) =
      .reply ⟨404, .text "Blog not found"⟩ s := by
  have hf : pushComment c b = none := by
    unfold pushComment
    rw [hnil]
  simp only [commentBlogHandler, updateOne, StoreEnv.healthy, Bool.false_eq_true, if_false]
  rw [updateFirst_eq_none id (pushComment c) s.blogColl hnd b hb hid hf]

theorem deleteBlogHandler_healthy (s : Server) (id : Int) (hnd : s.ids.Nodup) :
    deleteBlogHandler StoreEnv.healthy s (some id) =
      .reply ⟨200, .empty⟩ { s with blogColl := s.blogColl.filter (fun b => b.id != id) } := by
  simp only [deleteBlogHandler, deleteOne, StoreEnv.healthy, Bool.false_eq_true, if_false]
  rw [deleteFirst_eq_filter id s.blogColl hnd]

theorem getBlogsHandler_healthy (s : Server) :
    getBlogsHandler StoreEnv.healthy s = .reply ⟨200, .blogs s.blogColl⟩ s := by
  have hf : StoreEnv.healthy.findErr = false := rfl
  simp only [getBlogsHandler, hf, Bool.false_eq_true, if_false, scan_healthy, List.nil_append]

theorem runHealthy_likes (id : Int) (n : Nat) (s : Server) (hnd : s.ids.Nodup)
    (hle : ∀ b ∈ s.blogColl, b.id = id → b.likes + (n : Int) ≤ maxInt64) :
    runHealthy s (List.replicate n (.likeBlog (some id))) =
      { responses := List.replicate n ⟨200, .empty⟩,
        server := { s with blogColl := s.blogColl.map (Blog.liked id n) },
        exited := false } := by
  induction n generalizing s with
  | zero =>
    have hmap : s.blogColl.map (Blog.liked id 0) = s.blogColl := by
      conv_rhs => rw [← List.map_id s.blogColl]
      exact List.map_congr_left (fun b _ => liked_zero id b)
    simp only [List.replicate_zero, runHealthy_nil, hmap]
  | succ n ih =>
    have hlt : ∀ b ∈ s.blogColl, b.id = id → b.likes < maxInt64 := by
      intro b hb hid
      have := hle b hb hid
      push_cast at this
      omega
    rw [List.replicate_succ,
      runHealthy_cons_reply s _ _ (.likeBlog (some id)) _ (likeBlogHandler_healthy s id hnd hlt)]
    have hnd1 : (Server.ids { s with blogColl := s.blogColl.map (Blog.liked id 1) }).Nodup := by
      simp only [Server.ids, ids_map_liked]
      exact hnd
    have hle1 : ∀ b ∈ ({ s with blogColl := s.blogColl.map (Blog.liked id 1) } : Server).blogColl,
        b.id = id → b.likes + (n : Int) ≤ maxInt64 := by
      intro b1 hb1 hid1
      rcases List.mem_map.mp hb1 with ⟨b, hb, hbb1⟩
      have hbid : b.id = id := by
        rw [← hbb1] at hid1
        simp only [Blog.liked] at hid1
        split at hid1
        · assumption
        · exact hid1
      have := hle b hb hbid
      rw [← hbb1]
      simp only [Blog.liked, hbid, if_true]
      push_cast at this ⊢
      omega
    rw [ih _ hnd1 hle1]
    simp only [List.map_map, List.replicate_succ]
    congr 2
    apply List.map_congr_left
    intro b _
    exact liked_liked id n b

theorem runHealthy_comments (id : Int) (cs : List Comment) (s : Server) (hnd : s.ids.Nodup)
    (harr : ∀ b ∈ s.blogColl, b.id = id → b.comments ≠ none) :
    runHealthy s (cs.map (fun c => Call.commentBlog (some id) (some c))) =
      { responses := List.replicate cs.length ⟨200, .empty⟩,
        server := { s with blogColl := s.blogColl.map (Blog.commented id cs) },
        exited := false } := by
  induction cs generalizing s with
  | nil =>
    have hmap : s.blogColl.map (Blog.commented id []) = s.blogColl := by
      conv_rhs => rw [← List.map_id s.blogColl]
      exact List.map_congr_left (fun b _ => commented_nil id b)
    simp only [List.map_nil, runHealthy_nil, hmap, List.length_nil, List.replicate_zero]
  | cons c cs ih =>
    rw [List.map_cons,
      runHealthy_cons_reply s _ _ (.commentBlog (some id) (some c)) _
        (commentBlogHandler_array s id c hnd harr)]
    have hnd1 :
        (Server.ids { s with blogColl := s.blogColl.map (Blog.commented id [c]) }).Nodup := by
      simp only [Server.ids, ids_map_commented]
      exact hnd
    have harr1 :
        ∀ b ∈ ({ s with blogColl := s.blogColl.map (Blog.commented id [c]) } : Server).blogColl,
          b.id = id → b.comments ≠ none := by
      intro b1 hb1 hid1
      rcases List.mem_map.mp hb1 with ⟨b, hb, hbb1⟩
      have hbid : b.id = id := by
        rw [← hbb1] at hid1
        simp only [Blog.commented] at hid1
        split at hid1
        · assumption
        · exact hid1
      have := harr b hb hbid
      rw [← hbb1]
      simp only [Blog.commented, hbid, if_true]
      cases hc : b.comments with
      | none => exact absurd hc this
      | some old => simp
    rw [ih _ hnd1 harr1]
    simp only [List.map_map, List.length_cons, List.replicate_succ]
    congr 2
    apply List.map_congr_left
    intro b _
    exact commented_commented id c cs b

/-! ## One signup goroutine alone is the sequential handler -/

theorem signup_alone (s : Server) (u : User) :
    ((aloneStart s.userColl u).runSchedule [0, 0, 0, 0]).userColl =
        (signupHandler StoreEnv.healthy s (some u)).server.userColl ∧
      ((aloneStart s.userColl u).runSchedule [0, 0, 0, 0]).statuses =
        [(signupHandler StoreEnv.healthy s (some u)).status] ∧
      ((aloneStart s.userColl u).runSchedule [0, 0, 0, 0]).usersMu =
        { readers := 0, writer := false } := by
  cases hf : s.userColl.find? (fun x => x.username == u.username) with
  | some y =>
    simp [aloneStart, UsersSys.runSchedule, UsersSys.step, SignupThread.step, RWMutex.rLock,
      RWMutex.rUnlock, UsersSys.statuses, signupHandler, findOne_healthy, hf, Result.server,
      Result.status]
  | none =>
    simp [aloneStart, UsersSys.runSchedule, UsersSys.step, SignupThread.step, RWMutex.rLock,
      RWMutex.rUnlock, UsersSys.statuses, signupHandler, findOne_healthy, insertOne_healthy, hf,
      Result.server, Result.status]

/-! ## The counter stays below the number of invocations -/

theorem exec_counter_le (env : StoreEnv) (s : Server) (c : Call) :
    (c.exec env s).server.currentID ≤ s.currentID + 1 := by
  cases c with
  | login body =>
    rw [Call.exec, loginHandler_server]
    omega
  | signup body =>
    cases body with
    | none => simp [Call.exec, signupHandler, Result.server]
    | some u =>
      simp only [Call.exec, signupHandler]
      split
      · simp [Result.server]
      · split <;> simp [Result.server]
  | getBlogs =>
    simp only [Call.exec, getBlogsHandler]
    split
    · simp [Result.server]
    · split <;> simp [Result.server]
  | createBlog body =>
    cases body with
    | none => simp [Call.exec, createBlogHandler, Result.server]
    | some draft =>
      simp only [Call.exec, createBlogHandler]
      split <;> simp [Result.server]
  | deleteBlog idVar =>
    cases idVar with
    | none => simp [Call.exec, deleteBlogHandler, Result.server]
    | some id =>
      simp only [Call.exec, deleteBlogHandler]
      split <;> simp [Result.server]
  | likeBlog idVar =>
    cases idVar with
    | none => simp [Call.exec, likeBlogHandler, Result.server]
    | some id =>
      simp only [Call.exec, likeBlogHandler]
      split <;> simp [Result.server]
  | commentBlog idVar body =>
    cases idVar with
    | none => simp [Call.exec, commentBlogHandler, Result.server]
    | some id =>
      cases body with
      | none => simp [Call.exec, commentBlogHandler, Result.server]
      | some c =>
        simp only [Call.exec, commentBlogHandler]
        split <;> simp [Result.server]

/-- The counter after a run is at most the counter before it plus the number of invocations
served, and never below the counter before it: on every run of fewer than `2^63`
invocations from the initial state the counter stays in the range of a 64-bit `int`. -/
theorem run_counter_le (s : Server) (calls : List (StoreEnv × Call)) :
    s.currentID ≤ (run s calls).server.currentID ∧
      (run s calls).server.currentID ≤ s.currentID + (calls.length : Int) := by
  refine ⟨(run_grows s calls).1, ?_⟩
  induction calls generalizing s with
  | nil => simp [run_nil]
  | cons x rest ih =>
    have hstep := exec_counter_le x.1 s x.2
    cases hx : x.2.exec x.1 s with
    | fatal s1 =>
      rw [run_cons_fatal s s1 x rest hx]
      rw [hx] at hstep
      simp only [Result.server] at hstep
      simp only [List.length_cons]
      push_cast
      omega
    | reply resp s1 =>
      rw [run_cons_reply s s1 resp x rest hx]
      rw [hx] at hstep
      simp only [Result.server] at hstep
      have := ih s1
      simp only [List.length_cons]
      push_cast
      omega

/-! ## The end-to-end scenario -/

theorem end_to_end_scenario :
    run Server.initial
        [(StoreEnv.healthy, .createBlog (some ⟨99, "T", "C", "X", 0, some []⟩)),
         (StoreEnv.healthy, .likeBlog (some 1)),
         (StoreEnv.healthy, .commentBlog (some 1) (some ⟨"Y", "hi"⟩)),
         (StoreEnv.healthy, .getBlogs),
         (StoreEnv.healthy, .deleteBlog (some 1)),
         (StoreEnv.healthy, .getBlogs)] =
      { responses :=
          [⟨201, .blog ⟨1, "T", "C", "X", 0, some []⟩⟩, ⟨200, .empty⟩, ⟨200, .empty⟩,
           ⟨200, .blogs [⟨1, "T", "C", "X", 1, some [⟨"Y", "hi"⟩]⟩]⟩, ⟨200, .empty⟩,
           ⟨200, .blogs []⟩],
        server := { currentID := 1, blogColl := [], userColl := [] },
        exited := false } := by
  decide

/-! ## Claims -/

/-- C1: in every sequential run of handler invocations from the initial state (counter 0,
empty collection), whatever the store does and whatever id a draft carries, the i-th
successful create is assigned id i; so the assigned ids are pairwise distinct, there are as
many of them as successful creates, and the ids in the collection are pairwise distinct
after every step of the run. -/
theorem createBlog_assigns_fresh_ids (calls : List (StoreEnv × Call)) :
    assignedIds (run Server.initial calls).responses =
        (List.range (createdCount (run Server.initial calls).responses)).map
          (fun (i : Nat) => ((i + 1 : Nat) : Int)) ∧
      (assignedIds (run Server.initial calls).responses).Nodup ∧
      (assignedIds (run Server.initial calls).responses).length =
        createdCount (run Server.initial calls).responses ∧
      ∀ n : Nat, (run Server.initial (calls.take n)).server.ids.Nodup := by
  have hids : assignedIds (run Server.initial calls).responses =
      (List.range (createdCount (run Server.initial calls).responses)).map
        (fun (i : Nat) => ((i + 1 : Nat) : Int)) := by
    rw [run_assignedIds]
    apply List.map_congr_left
    intro i _
    simp only [Server.initial]
    push_cast
    omega
  refine ⟨hids, ?_, ?_, ?_⟩
  · rw [hids]
    apply List.Nodup.map _ (List.nodup_range _)
    intro a b hab
    simp only at hab
    omega
  · rw [hids, List.length_map, List.length_range]
  · intro n
    exact (run_inv Server.initial (calls.take n) inv_initial).1

/-- C2, what the code does: for an id that no Blog in the collection carries, and a store
that answers without error, the like, comment and delete handlers each reply 200 (not 404)
and leave the state unchanged. -/
theorem missing_id_replies_ok (s : Server) (id : Int) (c : Comment) (h : id ∉ s.ids) :
    likeBlogHandler StoreEnv.healthy s (some id) = .reply ⟨200, .empty⟩ s ∧
      commentBlogHandler StoreEnv.healthy s (some id) (some c) = .reply ⟨200, .empty⟩ s ∧
      deleteBlogHandler StoreEnv.healthy s (some id) = .reply ⟨200, .empty⟩ s := by
  have hno : ∀ b ∈ s.blogColl, (fun b : Blog => b.id == id) b = false := by
    intro b hb
    have hne : b.id ≠ id := fun hid => h (List.mem_map.mpr ⟨b, hb, hid⟩)
    simpa using hne
  refine ⟨?_, ?_, ?_⟩
  · simp only [likeBlogHandler, updateOne, StoreEnv.healthy, Bool.false_eq_true, if_false]
    rw [updateFirst_of_forall_not _ _ _ hno]
  · simp only [commentBlogHandler, updateOne, StoreEnv.healthy, Bool.false_eq_true, if_false]
    rw [updateFirst_of_forall_not _ _ _ hno]
  · simp only [deleteBlogHandler, deleteOne, StoreEnv.healthy, Bool.false_eq_true, if_false]
    rw [deleteFirst_of_forall_not _ _ hno]

/-- C2 at a concrete input: after a create and the delete of Blog 1, liking, commenting on
and deleting id 1 again each reply 200. -/
theorem missing_id_replies_ok_witness :
    (1 : Int) ∉ (run Server.initial
        [(StoreEnv.healthy, .createBlog (some ⟨0, "T", "C", "X", 0, none⟩)),
         (StoreEnv.healthy, .deleteBlog (some 1))]).server.ids ∧
      (likeBlogHandler StoreEnv.healthy (run Server.initial
          [(StoreEnv.healthy, .createBlog (some ⟨0, "T", "C", "X", 0, none⟩)),
           (StoreEnv.healthy, .deleteBlog (some 1))]).server (some 1) =
        .reply ⟨200, .empty⟩ (run Server.initial
          [(StoreEnv.healthy, .createBlog (some ⟨0, "T", "C", "X", 0, none⟩)),
           (StoreEnv.healthy, .deleteBlog (some 1))]).server ∧
      commentBlogHandler StoreEnv.healthy (run Server.initial
          [(StoreEnv.healthy, .createBlog (some ⟨0, "T", "C", "X", 0, none⟩)),
           (StoreEnv.healthy, .deleteBlog (some 1))]).server (some 1) (some ⟨"Y", "hi"⟩) =
        .reply ⟨200, .empty⟩ (run Server.initial
          [(StoreEnv.healthy, .createBlog (some ⟨0, "T", "C", "X", 0, none⟩)),
           (StoreEnv.healthy, .deleteBlog (some 1))]).server ∧
      deleteBlogHandler StoreEnv.healthy (run Server.initial
          [(StoreEnv.healthy, .createBlog (some ⟨0, "T", "C", "X", 0, none⟩)),
           (StoreEnv.healthy, .deleteBlog (some 1))]).server (some 1) =
        .reply ⟨200, .empty⟩ (run Server.initial
          [(StoreEnv.healthy, .createBlog (some ⟨0, "T", "C", "X", 0, none⟩)),
           (StoreEnv.healthy, .deleteBlog (some 1))]).server) :=
  ⟨by decide, missing_id_replies_ok _ 1 ⟨"Y", "hi"⟩ (by decide)⟩

/-- C3, what the code does: no request makes the dispatcher invoke the signup handler;
every `POST /api/users` request is served by the login handler, so a well-formed request
with a username not yet registered is answered 401 and inserts nothing, where the signup
handler would have answered 201 and inserted the User. -/
theorem signup_route_unreachable :
    (∀ (r : Request) (u : Option User), dispatch r ≠ some (.signup u)) ∧
      (∀ (env : StoreEnv) (s : Server) (body : Body),
        serveHTTP env s (usersRequest body) = loginHandler env s body.asUser) ∧
      serveHTTP StoreEnv.healthy Server.initial (usersRequest ⟨some ⟨"a", "p1"⟩, none, none⟩) =
        .reply ⟨401, .text "Invalid credentials"⟩ Server.initial ∧
      signupHandler StoreEnv.healthy Server.initial (some ⟨"a", "p1"⟩) =
        .reply ⟨201, .empty⟩ { currentID := 0, blogColl := [], userColl := [⟨"a", "p1"⟩] } := by
  refine ⟨dispatch_ne_signup, ?_, by decide, by decide⟩
  intro env s body
  simp only [serveHTTP, dispatch_usersRequest, Call.exec]

/-- C5, what the code does: the signup handler takes the users guard in shared mode, so two
signups for the same username can hold it together; in the schedule that alternates their
actions both pass the existence check before either inserts, both are answered 201, and
the collection ends with two Users of that username. -/
theorem concurrent_signups_both_succeed :
    (raceStart.runSchedule [0, 1]).usersMu = { readers := 2, writer := false } ∧
      (raceStart.runSchedule [0, 1, 0, 1, 0, 1, 0, 1]).statuses = [some 201, some 201] ∧
      (raceStart.runSchedule [0, 1, 0, 1, 0, 1, 0, 1]).userColl =
        [⟨"a", "p1"⟩, ⟨"a", "p2"⟩] ∧
      (raceStart.runSchedule [0, 0, 0, 0, 1, 1, 1, 1]).statuses = [some 201, some 409] := by
  decide

/-- C10, what the code does: when the scan cannot be started, or a record of the
collection cannot be decoded, the list handler ends the process (`log.Fatal`): no response
is written for that request and no later request is served. -/
theorem getBlogs_store_error_exits (env : StoreEnv) (s : Server) (body : Body)
    (rest : List (StoreEnv × Request))
    (h : env.findErr = true ∨ ∃ k, k < s.blogColl.length ∧ env.decodeErrAt = some k) :
    getBlogsHandler env s = .fatal s ∧
      serve s ((env, listRequest body) :: rest) =
        { responses := [], server := s, exited := true } := by
  have hfatal : getBlogsHandler env s = .fatal s := by
    unfold getBlogsHandler
    by_cases hf : env.findErr = true
    · simp [hf]
    · rcases h with h | ⟨k, hk, hd⟩
      · exact absurd h hf
      · rw [scan_decodeErr env k hd 0 s.blogColl [] (Nat.zero_le k) (by omega)]
        simp [hf]
  refine ⟨hfatal, ?_⟩
  simp [serve, runWith, serveHTTP, dispatch_listRequest, Call.exec, hfatal]

/-- C10 at a concrete input: the store is unreachable during one `GET /api/blogs`; the
healthy request that follows is never served. -/
theorem getBlogs_store_error_exits_witness :
    (({ findErr := true, decodeErrAt := none, writeErr := false } : StoreEnv).findErr = true ∨
        ∃ k, k < Server.initial.blogColl.length ∧
          ({ findErr := true, decodeErrAt := none, writeErr := false } : StoreEnv).decodeErrAt =
            some k) ∧
      (getBlogsHandler { findErr := true, decodeErrAt := none, writeErr := false }
          Server.initial = .fatal Server.initial ∧
        serve Server.initial
            (({ findErr := true, decodeErrAt := none, writeErr := false },
                listRequest ⟨none, none, none⟩) ::
              [(StoreEnv.healthy, listRequest ⟨none, none, none⟩)]) =
          { responses := [], server := Server.initial, exited := true }) :=
  ⟨Or.inl rfl, getBlogs_store_error_exits _ _ _ _ (Or.inl rfl)⟩

/-- C4: against a store that answers without error, Signup replies 409 and leaves the state
unchanged when some User already has the username, and otherwise replies 201 and inserts
exactly that User; so after every sequential run from the initial state no two stored
Users share a username. -/
theorem signup_conflict_or_insert (s : Server) (u : User) :
    ((∃ x ∈ s.userColl, x.username = u.username) →
        signupHandler StoreEnv.healthy s (some u) =
          .reply ⟨409, .text "Username is already taken"⟩ s) ∧
      ((∀ x ∈ s.userColl, x.username ≠ u.username) →
        signupHandler StoreEnv.healthy s (some u) =
          .reply ⟨201, .empty⟩ { s with userColl := s.userColl ++ [u] }) ∧
      (∀ bodies : List (Option User),
        (runHealthy Server.initial (bodies.map Call.signup)).server.usernames.Nodup) ∧
      (∀ calls : List Call, (runHealthy Server.initial calls).server.usernames.Nodup) :=
  ⟨signupHandler_taken s u, signupHandler_fresh s u,
    fun bodies => runHealthy_usernames _ _ (by simp [Server.initial, Server.usernames]),
    fun calls => runHealthy_usernames _ _ (by simp [Server.initial, Server.usernames])⟩

/-- C4 at concrete inputs: a second signup for username "a" is refused, and a signup for
"b" is inserted after the stored User. -/
theorem signup_conflict_or_insert_witness :
    signupHandler StoreEnv.healthy ⟨0, [], [⟨"a", "p1"⟩]⟩ (some ⟨"a", "p2"⟩) =
        .reply ⟨409, .text "Username is already taken"⟩ ⟨0, [], [⟨"a", "p1"⟩]⟩ ∧
      signupHandler StoreEnv.healthy ⟨0, [], [⟨"a", "p1"⟩]⟩ (some ⟨"b", "p2"⟩) =
        .reply ⟨201, .empty⟩ ⟨0, [], [⟨"a", "p1"⟩, ⟨"b", "p2"⟩]⟩ :=
  ⟨(signup_conflict_or_insert ⟨0, [], [⟨"a", "p1"⟩]⟩ ⟨"a", "p2"⟩).1
      ⟨⟨"a", "p1"⟩, by decide, by decide⟩,
    (signup_conflict_or_insert ⟨0, [], [⟨"a", "p1"⟩]⟩ ⟨"b", "p2"⟩).2.1 (by decide)⟩

/-- C6: against a store that answers without error, Login replies 200 exactly when the
collection holds a User whose username and password both equal the given strings, and
replies 401 exactly when it holds none; Login never changes the state.  After
Signup("a","p1"), Login("a","p1") replies 200 and Login("a","wrong") replies 401. -/
theorem login_iff_credentials (s : Server) (u p : String) :
    (loginHandler StoreEnv.healthy s (some ⟨u, p⟩) = .reply ⟨200, .empty⟩ s ↔
        ∃ x ∈ s.userColl, x.username = u ∧ x.password = p) ∧
      (loginHandler StoreEnv.healthy s (some ⟨u, p⟩) =
          .reply ⟨401, .text "Invalid credentials"⟩ s ↔
        ¬ ∃ x ∈ s.userColl, x.username = u ∧ x.password = p) ∧
      (∀ (env : StoreEnv) (body : Option User), (loginHandler env s body).server = s) ∧
      loginHandler StoreEnv.healthy
          (signupHandler StoreEnv.healthy Server.initial (some ⟨"a", "p1"⟩)).server
          (some ⟨"a", "p1"⟩) =
        .reply ⟨200, .empty⟩
          (signupHandler StoreEnv.healthy Server.initial (some ⟨"a", "p1"⟩)).server ∧
      loginHandler StoreEnv.healthy
          (signupHandler StoreEnv.healthy Server.initial (some ⟨"a", "p1"⟩)).server
          (some ⟨"a", "wrong"⟩) =
        .reply ⟨401, .text "Invalid credentials"⟩
          (signupHandler StoreEnv.healthy Server.initial (some ⟨"a", "p1"⟩)).server := by
  refine ⟨loginHandler_ok_iff s u p, ?_, fun env body => loginHandler_server env s body,
    by decide, by decide⟩
  rw [← loginHandler_ok_iff s u p]
  constructor
  · intro h401 h200
    rw [h200] at h401
    simp at h401
  · intro hn
    rcases loginHandler_ok_or_unauthorized s u p with h | h
    · exact absurd h hn
    · exact h

/-- C7 as written fails: Blog 1 of `maxLikesServer`, the state `POST /api/blogs` leaves
after a draft with likes `2^63 - 1`, is in a collection with distinct ids, yet LikeBlog(1)
replies 404 and changes nothing, instead of succeeding with one like more. -/
theorem like_at_max_likes_refused :
    (run Server.initial [(StoreEnv.healthy, .createBlog (some maxLikesDraft))]).server =
        maxLikesServer ∧
      maxLikesServer.ids.Nodup ∧ (1 : Int) ∈ maxLikesServer.ids ∧
      likeBlogHandler StoreEnv.healthy maxLikesServer (some 1) =
        .reply ⟨404, .text "Blog not found"⟩ maxLikesServer ∧
      likeBlogHandler StoreEnv.healthy maxLikesServer (some 1) ≠
        .reply ⟨200, .empty⟩
          { maxLikesServer with blogColl := maxLikesServer.blogColl.map (Blog.liked 1 1) } := by
  decide

/-- C7, amended: on a collection with pairwise distinct ids that holds a Blog of id `id`
whose likes are below `2^63 - 1`, and a store that answers without error, LikeBlog(id)
replies 200 and adds exactly 1 to the likes of that Blog, every other field and every other
Blog staying as they were; `n` successive likes add exactly `n` as long as the sum stays
at most `2^63 - 1`; and through any run of handler invocations, whatever the store does,
every record of the collection is a later version of an old record, with at least as many
likes, or a new record numbered above the old counter, so the likes of a Blog that is
still in the collection never go down. -/
theorem like_adds_exactly_one_below_max (s : Server) (id : Int) (hnd : s.ids.Nodup)
    (hmem : id ∈ s.ids) (hlt : ∀ b ∈ s.blogColl, b.id = id → b.likes < maxInt64) :
    likeBlogHandler StoreEnv.healthy s (some id) =
        .reply ⟨200, .empty⟩ { s with blogColl := s.blogColl.map (Blog.liked id 1) } ∧
      (∃ b ∈ s.blogColl, b.id = id ∧
        ({ b with likes := b.likes + 1 } : Blog) ∈ s.blogColl.map (Blog.liked id 1)) ∧
      (∀ n : Nat, (∀ b ∈ s.blogColl, b.id = id → b.likes + (n : Int) ≤ maxInt64) →
        runHealthy s (List.replicate n (.likeBlog (some id))) =
          { responses := List.replicate n ⟨200, .empty⟩,
            server := { s with blogColl := s.blogColl.map (Blog.liked id n) },
            exited := false }) ∧
      (∀ calls : List (StoreEnv × Call), Grows s (run s calls).server) ∧
      (∀ calls : List (StoreEnv × Call), (∀ i ∈ s.ids, i ≤ s.currentID) →
        ∀ b ∈ s.blogColl, ∀ b1 ∈ (run s calls).server.blogColl, b1.id = b.id →
          b.likes ≤ b1.likes) := by
  refine ⟨likeBlogHandler_healthy s id hnd hlt, ?_,
    fun n hle => runHealthy_likes id n s hnd hle, fun calls => run_grows s calls, ?_⟩
  · rcases List.mem_map.mp hmem with ⟨b, hb, hbid⟩
    refine ⟨b, hb, hbid, List.mem_map.mpr ⟨b, hb, ?_⟩⟩
    simp [Blog.liked, hbid]
  · intro calls hle b hb b1 hb1 hid
    exact (descends_of_grows ⟨hnd, hle⟩ (run_grows s calls) hb hb1 hid).2.2.2.2.1

/-- C7, amended, at a concrete input: liking Blog 1 of the sample state, once and three
times, and its likes after a like, a create and a delete of the other Blog. -/
theorem like_adds_exactly_one_below_max_witness :
    sampleServer.ids.Nodup ∧ (1 : Int) ∈ sampleServer.ids ∧
      (∀ b ∈ sampleServer.blogColl, b.id = 1 → b.likes < maxInt64) ∧
      likeBlogHandler StoreEnv.healthy sampleServer (some 1) =
        .reply ⟨200, .empty⟩
          { sampleServer with blogColl := sampleServer.blogColl.map (Blog.liked 1 1) } ∧
      (runHealthy sampleServer (List.replicate 3 (.likeBlog (some 1)))).server.blogColl =
        [⟨1, "T", "C", "X", 3, none⟩, ⟨2, "U", "D", "Z", 5, some [⟨"W", "first"⟩]⟩] ∧
      (0 : Int) ≤ 1 :=
  ⟨by decide, by decide, by decide,
    (like_adds_exactly_one_below_max sampleServer 1 (by decide) (by decide) (by decide)).1,
    by rw [(like_adds_exactly_one_below_max sampleServer 1 (by decide) (by decide)
         (by decide)).2.2.1 3 (by decide)]; decide,
    (like_adds_exactly_one_below_max sampleServer 1 (by decide) (by decide) (by decide)).2.2.2.2
      [(StoreEnv.healthy, .likeBlog (some 1)),
       (StoreEnv.healthy, .createBlog (some ⟨7, "V", "E", "Q", 0, none⟩)),
       (StoreEnv.healthy, .deleteBlog (some 2))]
      (by decide) ⟨1, "T", "C", "X", 0, none⟩ (by decide) ⟨1, "T", "C", "X", 1, none⟩
      (by decide) rfl⟩

/-- C8, what the code does: on a collection with pairwise distinct ids, for a Blog whose
`comments` is the nil slice, which is what a create stores for a draft without a `comments`
array, and a store that answers without error, CommentBlog replies 404 and appends
nothing; a Blog that holds an array gets the comment appended last, with reply 200. -/
theorem comment_on_nil_comments_refused (s : Server) (id : Int) (c : Comment)
    (hnd : s.ids.Nodup) (b : Blog) (hb : b ∈ s.blogColl) (hid : b.id = id) :
    (b.comments = none →
        commentBlogHandler StoreEnv.healthy s (some id) (some c) =
          .reply ⟨404, .text "Blog not found"⟩ s) ∧
      (b.comments ≠ none →
        commentBlogHandler StoreEnv.healthy s (some id) (some c) =
          .reply ⟨200, .empty⟩ { s with blogColl := s.blogColl.map (Blog.commented id [c]) }) ∧
      (∀ (env : StoreEnv) (s0 : Server) (draft stored : Blog) (s1 : Server),
        draft.comments = none →
        createBlogHandler env s0 (some draft) = .reply ⟨201, .blog stored⟩ s1 →
          stored.comments = none ∧ stored ∈ s1.blogColl) := by
  refine ⟨fun hnil => commentBlogHandler_nil s id c hnd b hb hid hnil, ?_, ?_⟩
  · intro harr
    apply commentBlogHandler_array s id c hnd
    intro b1 hb1 hid1
    have hbb : b1 = b :=
      List.inj_on_of_nodup_map hnd hb1 hb (hid1.trans hid.symm)
    rw [hbb]
    exact harr
  · intro env s0 draft stored s1 hnil hcreate
    simp only [createBlogHandler, insertOne] at hcreate
    split at hcreate
    · simp at hcreate
    · rename_i blogs hins
      split at hins
      · simp at hins
      · injection hins with hins
        injection hcreate with hresp hs1
        injection hresp with _ hpl
        injection hpl with hst
        subst hs1
        rw [← hst]
        refine ⟨hnil, ?_⟩
        simp [← hins]

/-- C8 at a concrete input, the end-to-end example: `POST /api/blogs` with the draft
`{"title":"T","content":"C","author":"X"}`, then a comment on Blog 1, is answered 201 and
then 404, and Blog 1 has no comment. -/
theorem comment_on_nil_comments_refused_witness :
    run Server.initial
        [(StoreEnv.healthy, .createBlog (some plainDraft)),
         (StoreEnv.healthy, .commentBlog (some 1) (some ⟨"Y", "hi"⟩))] =
      { responses :=
          [⟨201, .blog ⟨1, "T", "C", "X", 0, none⟩⟩, ⟨404, .text "Blog not found"⟩],
        server := { currentID := 1, blogColl := [⟨1, "T", "C", "X", 0, none⟩], userColl := [] },
        exited := false } ∧
      commentBlogHandler StoreEnv.healthy
          { currentID := 1, blogColl := [⟨1, "T", "C", "X", 0, none⟩], userColl := [] }
          (some 1) (some ⟨"Y", "hi"⟩) =
        .reply ⟨404, .text "Blog not found"⟩
          { currentID := 1, blogColl := [⟨1, "T", "C", "X", 0, none⟩], userColl := [] } ∧
      commentBlogHandler StoreEnv.healthy sampleServer (some 2) (some ⟨"Y", "hi"⟩) =
        .reply ⟨200, .empty⟩
          { sampleServer with
            blogColl := sampleServer.blogColl.map (Blog.commented 2 [⟨"Y", "hi"⟩]) } ∧
      (⟨1, "T", "C", "X", 0, none⟩ : Blog).comments = none :=
  ⟨by decide,
    (comment_on_nil_comments_refused
        { currentID := 1, blogColl := [⟨1, "T", "C", "X", 0, none⟩], userColl := [] } 1
        ⟨"Y", "hi"⟩ (by decide) ⟨1, "T", "C", "X", 0, none⟩ (by decide) rfl).1 rfl,
    (comment_on_nil_comments_refused sampleServer 2 ⟨"Y", "hi"⟩ (by decide)
        ⟨2, "U", "D", "Z", 5, some [⟨"W", "first"⟩]⟩ (by decide) rfl).2.1 (by decide),
    ((comment_on_nil_comments_refused sampleServer 2 ⟨"Y", "hi"⟩ (by decide)
        ⟨2, "U", "D", "Z", 5, some [⟨"W", "first"⟩]⟩ (by decide) rfl).2.2
      StoreEnv.healthy Server.initial plainDraft ⟨1, "T", "C", "X", 0, none⟩
      { currentID := 1, blogColl := [⟨1, "T", "C", "X", 0, none⟩], userColl := [] }
      rfl (by decide)).1⟩

/-- C9: on a collection with pairwise distinct ids that holds a Blog of id `id`, and a store
that answers without error, DeleteBlog(id) replies 200 and removes exactly that Blog, with
its comments: the collection, and what a following ListBlogs returns, is the previous
sequence without the Blog of that id, the others unchanged and in the same order, one
record shorter; the counter and the users are not changed. -/
theorem delete_removes_exactly_that_blog (s : Server) (id : Int) (hnd : s.ids.Nodup)
    (hmem : id ∈ s.ids) :
    deleteBlogHandler StoreEnv.healthy s (some id) =
        .reply ⟨200, .empty⟩ { s with blogColl := s.blogColl.filter (fun b => b.id != id) } ∧
      getBlogsHandler StoreEnv.healthy (deleteBlogHandler StoreEnv.healthy s (some id)).server =
        .reply ⟨200, .blogs (s.blogColl.filter (fun b => b.id != id))⟩
          (deleteBlogHandler StoreEnv.healthy s (some id)).server ∧
      (deleteBlogHandler StoreEnv.healthy s (some id)).server.currentID = s.currentID ∧
      (deleteBlogHandler StoreEnv.healthy s (some id)).server.userColl = s.userColl ∧
      (s.blogColl.filter (fun b => b.id != id)).length + 1 = s.blogColl.length ∧
      id ∉ (deleteBlogHandler StoreEnv.healthy s (some id)).server.ids := by
  have hdel := deleteBlogHandler_healthy s id hnd
  refine ⟨hdel, ?_, ?_, ?_, ?_, ?_⟩
  · rw [hdel, getBlogsHandler_healthy]
    rfl
  · rw [hdel]
    rfl
  · rw [hdel]
    rfl
  · rw [← deleteFirst_eq_filter id s.blogColl hnd]
    apply length_deleteFirst
    rcases List.mem_map.mp hmem with ⟨b, hb, hbid⟩
    exact ⟨b, hb, by simp [hbid]⟩
  · rw [hdel]
    simp only [Result.server, Server.ids, List.mem_map, List.mem_filter, not_exists, not_and]
    intro b hb hbid
    simp [hbid] at hb

/-- C9 at a concrete input: deleting Blog 1 of the sample state leaves Blog 2 alone. -/
theorem delete_removes_exactly_that_blog_witness :
    sampleServer.ids.Nodup ∧ (1 : Int) ∈ sampleServer.ids ∧
      deleteBlogHandler StoreEnv.healthy sampleServer (some 1) =
        .reply ⟨200, .empty⟩
          { currentID := 2, blogColl := [⟨2, "U", "D", "Z", 5, some [⟨"W", "first"⟩]⟩],
            userColl := [] } ∧
      getBlogsHandler StoreEnv.healthy
          (deleteBlogHandler StoreEnv.healthy sampleServer (some 1)).server =
        .reply ⟨200, .blogs (sampleServer.blogColl.filter (fun b => b.id != 1))⟩
          (deleteBlogHandler StoreEnv.healthy sampleServer (some 1)).server :=
  ⟨by decide, by decide,
    (delete_removes_exactly_that_blog sampleServer 1 (by decide) (by decide)).1.trans
      (by decide),
    (delete_removes_exactly_that_blog sampleServer 1 (by decide) (by decide)).2.1⟩

end BlogsGo
